import Mathlib

/-!
# harbor_ldap_sync (`main.go`): a shallow embedding and its verified properties

The program talks to two outside parties: the Harbor REST API (through a resty
client) and an LDAP directory (through go-ldap).  Both are modelled by a
`World σ`: one handler per call the program makes, each of them a function of
the outside state `σ` that returns the answer together with the next state.
The program functions thread that state explicitly and return, next to their
Go result, the list of `Event`s they produced (requests with their outcome,
directory operations, lines printed), in program order.

Go values are modelled as follows.
* `error` is `Option String` (`none` is `nil`), the string being the message.
* `int` is `Int`; the page counter `i` of the two page loops is a `Nat` (it
  counts the requests already made, far below `2^63`).
* a JSON number decoded into `interface{}` is a `float64`; it is modelled by the
  rational number it denotes.
* `map[string]struct{}` is the list of its keys without repetition; the order
  in which `range` visits a map is unspecified in Go and is a field of
  `GoRuntime`.
* the unbounded loops `for i := 0; ; i++` take a fuel argument: `none` means
  that the fuel ran out before the loop ended.
-/

namespace HarborLdapSync

/-! ## Values and the Go runtime -/

/-- A value that `encoding/json` stores into an `interface{}`. -/
inductive JsonValue where
  | null
  | bool (b : Bool)
  | number (f : ℚ)
  | string (s : String)
  | array (items : List JsonValue)
  | object (fields : List (String × JsonValue))

/-- The text `%T` prints for a decoded JSON value. -/
def typeName : JsonValue → String
  | .null => "<nil>"
  | .bool _ => "bool"
  | .number _ => "float64"
  | .string _ => "string"
  | .array _ => "[]interface \x7b\x7d"
  | .object _ => "map[string]interface \x7b\x7d"

/-- The parts of the Go runtime and standard library that the program relies on
and that are not modelled bit by bit. -/
structure GoRuntime where
  /-- The text `%v` prints for a decoded JSON value. -/
  fmtV : JsonValue → String
  /-- The result of `int(f)` for a float outside the range of `int`
  (implementation-dependent in Go). -/
  intOutOfRange : ℚ → Int
  /-- The order in which `range` visits the keys of a map. -/
  mapRange : List String → List String
  /-- A `range` over a map visits every key exactly once. -/
  mapRange_perm : ∀ keys, (mapRange keys).Perm keys
  /-- The function `strings.ToLower`. -/
  toLower : String → String

/-- The conversion `int(vv)` of a `float64`: truncation toward zero. -/
def floatToInt (rt : GoRuntime) (vv : ℚ) : Int :=
  let t := Int.tdiv vv.num vv.den
  if -(2 : Int) ^ 63 ≤ t ∧ t < (2 : Int) ^ 63 then t else rt.intOutOfRange vv

/-- The decoded settings map `map[string]struct{ Value interface{} }`: the
`Value` of a key, `none` for a key that is not in the map. -/
abbrev RawCfg := String → Option JsonValue

/-! ## Maps used as sets -/

/-- The statement `m[k] = struct{}{}` on a `map[string]struct{}`. -/
def mapInsert (m : List String) (k : String) : List String :=
  if k ∈ m then m else m ++ [k]

/-- The statement `delete(m, k)`. -/
def mapDelete (m : List String) (k : String) : List String :=
  m.filter (fun x => x != k)

/-! ## The outside world -/

/-- A response of the Harbor API as seen through resty. -/
structure Resp (α : Type) where
  /-- The value of `resp.StatusCode()`. -/
  code : Nat
  /-- The value of `resp.Status()`. -/
  status : String
  /-- The value of `resp.String()`. -/
  raw : String
  /-- The value found in the `SetResult` target after the call. -/
  result : α

/-- The pair `resp, err` of a resty call: `.error msg` is `err != nil`. -/
abbrev Http (α : Type) := Except String (Resp α)

/-- A response without its decoded result. -/
def Http.forget {α : Type} : Http α → Http Unit
  | .error e => .error e
  | .ok r => .ok ⟨r.code, r.status, r.raw, ()⟩

/-- The body of a create-group request. -/
structure GroupBody where
  group_name : String
  ldap_group_dn : String
  group_type : Int
  deriving DecidableEq, Repr

/-- The three search scopes of go-ldap. -/
inductive Scope where
  | baseObject
  | singleLevel
  | wholeSubtree
  deriving DecidableEq, Repr

/-- The arguments of `ldap.NewSearchRequest` that the program chooses. -/
structure SearchRequest where
  baseDN : String
  scope : Scope
  filter : String
  attributes : List String
  deriving DecidableEq, Repr

/-- An entry of a directory search result. -/
structure Entry where
  DN : String
  attributes : List (String × List String)
  deriving DecidableEq, Repr

/-- The method `Entry.GetAttributeValue` of go-ldap: the first value of the
first attribute with that name, the empty string when there is none. -/
def Entry.GetAttributeValue (e : Entry) (attr : String) : String :=
  match e.attributes.find? (fun a => a.1 == attr) with
  | some (_, v :: _) => v
  | _ => ""

/-- The configuration record of the program. -/
structure ldapConfig where
  url : String
  searchDN : String
  groupBaseDN : String
  groupFilter : String
  groupAttr : String
  scope : Int
  verifyCert : Bool
  deriving DecidableEq, Repr

/-- The handlers of the outside world, one per call of the program. -/
structure World (σ : Type) where
  /-- The request `GET api/v2.0/ldap/users/search`. -/
  getLdapUsersSearch : σ → Http (List String) × σ
  /-- The request `GET api/v2.0/users` with `page` and `page_size`. -/
  getUsers : Nat → Nat → σ → Http (List String) × σ
  /-- The request `POST api/v2.0/ldap/users/import` with its `ldap_uid_list`. -/
  postLdapUsersImport : List String → σ → Http Unit × σ
  /-- The request `GET api/v2.0/configurations`. -/
  getConfigurations : σ → Http RawCfg × σ
  /-- The request `GET api/v2.0/usergroups` with `page` and `page_size`. -/
  getUsergroups : Nat → Nat → σ → Http (List String) × σ
  /-- The request `POST api/v2.0/usergroups`. -/
  postUsergroups : GroupBody → σ → Http Unit × σ
  /-- The call `ldap.DialURL` with the url and `InsecureSkipVerify`. -/
  dialURL : String → Bool → σ → Option String × σ
  /-- The call `conn.Bind`. -/
  bind : String → String → σ → Option String × σ
  /-- The call `conn.Search`. -/
  search : SearchRequest → σ → Except String (List Entry) × σ

/-- A request sent to the Harbor API. -/
inductive Request where
  | ldapUsersSearch
  | usersList (page pageSize : Nat)
  | ldapUsersImport (ldap_uid_list : List String)
  | configurations
  | usergroupsList (page pageSize : Nat)
  | usergroupsCreate (g : GroupBody)

/-- A line written to standard output. -/
inductive Print where
  | ldapUserSearchReturned (search : List String)
  | noNewLdapUsers
  | newLdapUsers (list : List String)
  | harborConfig (rawCfg : RawCfg)
  | ldapConfigIs (cfg : ldapConfig)
  | alreadyExists (dn : String)
  | created (dn : String)
  | existsNotFilteredOut (dn : String)
  | noNewLdapGroups
  | unknownSyncType
  | printDefaults
  | userSyncFailed (err : String)
  | groupSyncFailed (err : String)

/-- What the program does that can be observed from outside. -/
inductive Event where
  | http (req : Request) (out : Http Unit)
  | ldapDial (url : String) (insecureSkipVerify : Bool) (err : Option String)
  | ldapBind (dn pass : String) (err : Option String)
  | ldapSearch (req : SearchRequest) (out : Except String (List Entry))
  | print (p : Print)

/-- The outcome of running a piece of the program: its Go result, the state of
the outside world afterwards, and the events in program order. -/
structure Run (σ α : Type) where
  ret : α
  state : σ
  events : List Event

/-- Put an event in front of those of a run. -/
def Run.after {σ α : Type} (e : Event) (r : Run σ α) : Run σ α :=
  { r with events := e :: r.events }

/-- Put a list of events in front of those of a run. -/
def Run.afterAll {σ α : Type} (es : List Event) (r : Run σ α) : Run σ α :=
  { r with events := es ++ r.events }

/-! ## `getLdapConfig` -/

/-- The message of `fmt.Errorf("<key> is not <want>: %v(%T)", v.Value, v.Value)`. -/
def typeError (rt : GoRuntime) (key want : String) (v : JsonValue) : String :=
  key ++ " is not " ++ want ++ ": " ++ rt.fmtV v ++ "(" ++ typeName v ++ ")"

/-- The block that `getLdapConfig` repeats for each of its five string settings:
when the key is present its value must be a string and must not be empty. -/
def getLdapConfig.stringSetting (rt : GoRuntime) (rawCfg : RawCfg) (key : String)
    (cur : String) : Except String String :=
  match rawCfg key with
  | none => .ok cur
  | some (.string x) => if x = "" then .error (key ++ " is missing") else .ok x
  | some v => .error (typeError rt key "string" v)

/-- Lines 105 to 165 of `getLdapConfig`: the configuration read from the decoded
settings map. -/
def getLdapConfig.resolve (rt : GoRuntime) (rawCfg : RawCfg) : Except String ldapConfig := do
  let cfg : ldapConfig :=
    { url := "", searchDN := "", groupBaseDN := "", groupFilter := "",
      groupAttr := "cn", scope := 2, verifyCert := true }
  let url ← getLdapConfig.stringSetting rt rawCfg "ldap_url" cfg.url
  let cfg := { cfg with url := url }
  let searchDN ← getLdapConfig.stringSetting rt rawCfg "ldap_search_dn" cfg.searchDN
  let cfg := { cfg with searchDN := searchDN }
  let groupBaseDN ← getLdapConfig.stringSetting rt rawCfg "ldap_group_base_dn" cfg.groupBaseDN
  let cfg := { cfg with groupBaseDN := groupBaseDN }
  let groupFilter ←
    getLdapConfig.stringSetting rt rawCfg "ldap_group_search_filter" cfg.groupFilter
  let cfg := { cfg with groupFilter := groupFilter }
  let groupAttr ←
    getLdapConfig.stringSetting rt rawCfg "ldap_group_attribute_name" cfg.groupAttr
  let cfg := { cfg with groupAttr := groupAttr }
  let scope ← match rawCfg "ldap_group_search_scope" with
    | none => pure cfg.scope
    | some (.number vv) => pure (floatToInt rt vv)
    | some v => throw (typeError rt "ldap_group_search_scope" "int" v)
  let cfg := { cfg with scope := scope }
  let verifyCert ← match rawCfg "ldap_verify_cert" with
    | none => pure cfg.verifyCert
    | some (.bool b) => pure b
    | some v => throw (typeError rt "ldap_verify_cert" "bool" v)
  let cfg := { cfg with verifyCert := verifyCert }
  return cfg

/-- The function `getLdapConfig`: fetch the settings map and read the directory
configuration from it. -/
def getLdapConfig {σ : Type} (rt : GoRuntime) (w : World σ) (verbose : Bool) (s : σ) :
    Run σ (Except String ldapConfig) :=
  match w.getConfigurations s with
  | (.error err, s1) =>
    ⟨.error ("request failed: " ++ err), s1, [.http .configurations (.error err)]⟩
  | (.ok resp, s1) =>
    let ev := Event.http .configurations (Http.forget (.ok resp))
    if resp.code ≠ 200 then
      ⟨.error ("request returned " ++ resp.status ++ " " ++ resp.raw), s1, [ev]⟩
    else
      let out := if verbose then [ev, .print (.harborConfig resp.result)] else [ev]
      ⟨getLdapConfig.resolve rt resp.result, s1, out⟩

/-! ## `syncUsers` -/

/-- The loop `for i := 0; ; i++` of `syncUsers` (lines 37 to 55), entered with
counter `i` and the map `ldapMap`; it returns the map left when the loop ends. -/
def syncUsers.pages {σ : Type} (w : World σ) :
    Nat → Nat → List String → σ → Option (Run σ (Except String (List String)))
  | 0, _, _, _ => none
  | fuel + 1, i, ldapMap, s =>
    match w.getUsers i 100 s with
    | (.error err, s1) =>
      some ⟨.error ("failed to search existing: " ++ err), s1,
        [.http (.usersList i 100) (.error err)]⟩
    | (.ok resp, s1) =>
      let ev := Event.http (.usersList i 100) (Http.forget (.ok resp))
      if resp.code ≠ 200 then
        some ⟨.error ("search existing returned " ++ resp.status ++ " " ++ resp.raw), s1, [ev]⟩
      else
        let ldapMap1 := resp.result.foldl mapDelete ldapMap
        if resp.result.length < 100 then
          some ⟨.ok ldapMap1, s1, [ev]⟩
        else
          (syncUsers.pages w fuel (i + 1) ldapMap1 s1).map (Run.after ev)

/-- The function `syncUsers`. -/
def syncUsers {σ : Type} (rt : GoRuntime) (w : World σ) (verbose : Bool) (fuel : Nat) (s : σ) :
    Option (Run σ (Option String)) :=
  match w.getLdapUsersSearch s with
  | (.error err, s1) =>
    some ⟨some ("failed to search LDAP: " ++ err), s1, [.http .ldapUsersSearch (.error err)]⟩
  | (.ok resp, s1) =>
    let ev := Event.http .ldapUsersSearch (Http.forget (.ok resp))
    if resp.code ≠ 200 then
      some ⟨some ("search existing returned " ++ resp.status ++ " " ++ resp.raw), s1, [ev]⟩
    else
      let search := resp.result
      let ldapMap := search.foldl mapInsert []
      let out1 := if verbose then [ev, .print (.ldapUserSearchReturned search)] else [ev]
      match syncUsers.pages w fuel 0 ldapMap s1 with
      | none => none
      | some ⟨.error e, s2, evs⟩ => some ⟨some e, s2, out1 ++ evs⟩
      | some ⟨.ok ldapMap, s2, evs⟩ =>
        if ldapMap.length = 0 then
          some ⟨none, s2, out1 ++ evs ++ [.print .noNewLdapUsers]⟩
        else
          let uidList := rt.mapRange ldapMap
          match w.postLdapUsersImport uidList s2 with
          | (.error err, s3) =>
            some ⟨some ("failed to import: " ++ err), s3,
              out1 ++ evs ++ [.http (.ldapUsersImport uidList) (.error err)]⟩
          | (.ok resp3, s3) =>
            let ev3 := Event.http (.ldapUsersImport uidList) (Http.forget (.ok resp3))
            if resp3.code ≠ 200 then
              some ⟨some ("import returned " ++ resp3.status ++ " " ++ resp3.raw), s3,
                out1 ++ evs ++ [ev3]⟩
            else
              some ⟨none, s3, out1 ++ evs ++ [ev3, .print (.newLdapUsers uidList)]⟩

/-! ## `syncGroups` -/

/-- The loop `for i := 0; ; i++` of `syncGroups` (lines 178 to 197), entered
with counter `i` and the map `existingGroups`. -/
def syncGroups.pages {σ : Type} (w : World σ) :
    Nat → Nat → List String → σ → Option (Run σ (Except String (List String)))
  | 0, _, _, _ => none
  | fuel + 1, i, existingGroups, s =>
    match w.getUsergroups i 100 s with
    | (.error err, s1) =>
      some ⟨.error ("failed to search: " ++ err), s1, [.http (.usergroupsList i 100) (.error err)]⟩
    | (.ok resp, s1) =>
      let ev := Event.http (.usergroupsList i 100) (Http.forget (.ok resp))
      if resp.code ≠ 200 then
        some ⟨.error ("search returned " ++ resp.status ++ " " ++ resp.raw), s1, [ev]⟩
      else
        let existingGroups1 := resp.result.foldl mapInsert existingGroups
        if resp.result.length < 100 then
          some ⟨.ok existingGroups1, s1, [ev]⟩
        else
          (syncGroups.pages w fuel (i + 1) existingGroups1 s1).map (Run.after ev)

/-- The `switch cfg.scope` of `syncGroups` (lines 209 to 217). -/
def syncGroups.scope (cfg : ldapConfig) : Scope :=
  if cfg.scope = 0 then .baseObject
  else if cfg.scope = 1 then .singleLevel
  else if cfg.scope = 2 then .wholeSubtree
  else .wholeSubtree

/-- The search request that `syncGroups` sends to the directory (line 218). -/
def syncGroups.searchRequest (cfg : ldapConfig) : SearchRequest :=
  { baseDN := cfg.groupBaseDN, scope := syncGroups.scope cfg, filter := cfg.groupFilter,
    attributes := [cfg.groupAttr] }

/-- The group record that `syncGroups` submits for an entry (lines 232 to 240). -/
def syncGroups.body (cfg : ldapConfig) (e : Entry) : GroupBody :=
  { group_name := e.GetAttributeValue cfg.groupAttr, ldap_group_dn := e.DN, group_type := 1 }

/-- The loop `for _, e := range result.Entries` of `syncGroups` (lines 224 to
255); it returns the final value of `didInsert`. -/
def syncGroups.insert {σ : Type} (w : World σ) (verbose : Bool) (cfg : ldapConfig)
    (existingGroups : List String) : List Entry → Bool → σ → Run σ (Except String Bool)
  | [], didInsert, s => ⟨.ok didInsert, s, []⟩
  | e :: rest, didInsert, s =>
    if e.DN ∈ existingGroups then
      Run.afterAll (if verbose then [.print (.alreadyExists e.DN)] else [])
        (syncGroups.insert w verbose cfg existingGroups rest didInsert s)
    else
      let g := syncGroups.body cfg e
      match w.postUsergroups g s with
      | (.error err, s1) =>
        ⟨.error ("insert request failed: " ++ err), s1,
          [.http (.usergroupsCreate g) (.error err)]⟩
      | (.ok resp, s1) =>
        let ev := Event.http (.usergroupsCreate g) (Http.forget (.ok resp))
        if resp.code ≠ 201 ∧ resp.code ≠ 409 then
          ⟨.error ("insert request returned " ++ resp.status ++ " " ++ resp.raw), s1, [ev]⟩
        else
          let line := if resp.code = 201 then Print.created e.DN
            else Print.existsNotFilteredOut e.DN
          Run.afterAll [ev, .print line]
            (syncGroups.insert w verbose cfg existingGroups rest true s1)

/-- Lines 199 to 221 of `syncGroups`: connect to the directory, bind when a bind
DN and a password are both given, and run the group search. -/
def syncGroups.connect {σ : Type} (w : World σ) (ldapPass : String) (cfg : ldapConfig) (s : σ) :
    Run σ (Except String (List Entry)) :=
  match w.dialURL cfg.url (!cfg.verifyCert) s with
  | (some err, s1) =>
    ⟨.error ("failed to connect to LDAP: " ++ err), s1,
      [.ldapDial cfg.url (!cfg.verifyCert) (some err)]⟩
  | (none, s1) =>
    let evDial := Event.ldapDial cfg.url (!cfg.verifyCert) none
    let bound : Run σ (Option String) :=
      if cfg.searchDN ≠ "" ∧ ldapPass ≠ "" then
        match w.bind cfg.searchDN ldapPass s1 with
        | (some err, s2) =>
          ⟨some ("failed to bind: " ++ err), s2, [.ldapBind cfg.searchDN ldapPass (some err)]⟩
        | (none, s2) => ⟨none, s2, [.ldapBind cfg.searchDN ldapPass none]⟩
      else ⟨none, s1, []⟩
    match bound with
    | ⟨some err, s2, evs⟩ => ⟨.error err, s2, evDial :: evs⟩
    | ⟨none, s2, evs⟩ =>
      let req := syncGroups.searchRequest cfg
      match w.search req s2 with
      | (.error err, s3) =>
        ⟨.error ("failed to search LDAP: " ++ err), s3,
          evDial :: evs ++ [.ldapSearch req (.error err)]⟩
      | (.ok entries, s3) =>
        ⟨.ok entries, s3, evDial :: evs ++ [.ldapSearch req (.ok entries)]⟩

/-- Lines 169 to 221 of `syncGroups`: everything before the loop over the search
result.  On success it yields the configuration, the map `existingGroups` and
`result.Entries`. -/
def syncGroups.collect {σ : Type} (rt : GoRuntime) (w : World σ) (ldapPass : String)
    (verbose : Bool) (fuel : Nat) (s : σ) :
    Option (Run σ (Except String (ldapConfig × List String × List Entry))) :=
  match getLdapConfig rt w verbose s with
  | ⟨.error err, s1, evs1⟩ => some ⟨.error ("failed to get LDAP config: " ++ err), s1, evs1⟩
  | ⟨.ok cfg, s1, evs1⟩ =>
    let out1 := evs1 ++ (if verbose then [.print (.ldapConfigIs cfg)] else [])
    match syncGroups.pages w fuel 0 [] s1 with
    | none => none
    | some ⟨.error err, s2, evs2⟩ => some ⟨.error err, s2, out1 ++ evs2⟩
    | some ⟨.ok existingGroups, s2, evs2⟩ =>
      match syncGroups.connect w ldapPass cfg s2 with
      | ⟨.error err, s3, evs3⟩ => some ⟨.error err, s3, out1 ++ evs2 ++ evs3⟩
      | ⟨.ok entries, s3, evs3⟩ =>
        some ⟨.ok (cfg, existingGroups, entries), s3, out1 ++ evs2 ++ evs3⟩

/-- The function `syncGroups`. -/
def syncGroups {σ : Type} (rt : GoRuntime) (w : World σ) (ldapPass : String) (verbose : Bool)
    (fuel : Nat) (s : σ) : Option (Run σ (Option String)) :=
  match syncGroups.collect rt w ldapPass verbose fuel s with
  | none => none
  | some ⟨.error err, s1, evs1⟩ => some ⟨some err, s1, evs1⟩
  | some ⟨.ok (cfg, existingGroups, entries), s1, evs1⟩ =>
    match syncGroups.insert w verbose cfg existingGroups entries false s1 with
    | ⟨.error err, s2, evs2⟩ => some ⟨some err, s2, evs1 ++ evs2⟩
    | ⟨.ok didInsert, s2, evs2⟩ =>
      some ⟨none, s2, evs1 ++ evs2 ++ (if !didInsert then [.print .noNewLdapGroups] else [])⟩

/-! ## `main` -/

/-- The command-line flags after `flag.Parse()`. -/
structure Flags where
  sync : String
  harbor_url : String
  harbor_login : String
  harbor_pass : String
  ldap_pass : String
  verbose : Bool

/-- The call `strings.Split(s, ",")` on the characters of `s`: `cur` holds the
characters of the piece being read, in reverse. -/
def splitComma : List Char → List Char → List String
  | [], cur => [String.mk cur.reverse]
  | c :: cs, cur =>
    if c = ',' then String.mk cur.reverse :: splitComma cs [] else splitComma cs (c :: cur)

/-- The call `strings.Trim(s, " ")`. -/
def trimSpaces (s : String) : String :=
  String.mk ((s.data.dropWhile (fun c => c == ' ')).reverse.dropWhile
    (fun c => c == ' ')).reverse

/-- The loop over the requested sync types (lines 279 to 297): the final
`doSyncUsers` and `doSyncGroups` and the lines printed. -/
def mainSyncTypes (rt : GoRuntime) :
    List String → Bool → Bool → List String → Bool × Bool × List Event
  | [], doSyncUsers, doSyncGroups, _ => (doSyncUsers, doSyncGroups, [])
  | s0 :: rest, doSyncUsers, doSyncGroups, dedup =>
    let s := trimSpaces (rt.toLower s0)
    if s ∈ dedup then mainSyncTypes rt rest doSyncUsers doSyncGroups dedup
    else
      let dedup1 := mapInsert dedup s
      if s = "users" then mainSyncTypes rt rest true doSyncGroups dedup1
      else if s = "groups" then mainSyncTypes rt rest doSyncUsers true dedup1
      else
        let r := mainSyncTypes rt rest doSyncUsers doSyncGroups dedup1
        (r.1, r.2.1, .print .unknownSyncType :: .print .printDefaults :: r.2.2)

/-- Lines 299 to 315 of `main`: run the requested reconcilers; the result is the
exit status of the process. -/
def mainRun {σ : Type} (rt : GoRuntime) (w : World σ) (fl : Flags)
    (doSyncUsers doSyncGroups : Bool) (fuel : Nat) (s : σ) : Option (Run σ Nat) :=
  let users : Option (Run σ Bool) :=
    if doSyncUsers then
      match syncUsers rt w fl.verbose fuel s with
      | none => none
      | some ⟨some err, s1, evs⟩ => some ⟨true, s1, evs ++ [.print (.userSyncFailed err)]⟩
      | some ⟨none, s1, evs⟩ => some ⟨false, s1, evs⟩
    else some ⟨false, s, []⟩
  match users with
  | none => none
  | some ⟨didFail, s1, evs1⟩ =>
    let groups : Option (Run σ Bool) :=
      if doSyncGroups then
        match syncGroups rt w fl.ldap_pass fl.verbose fuel s1 with
        | none => none
        | some ⟨some err, s2, evs⟩ => some ⟨true, s2, evs ++ [.print (.groupSyncFailed err)]⟩
        | some ⟨none, s2, evs⟩ => some ⟨didFail, s2, evs⟩
      else some ⟨didFail, s1, []⟩
    match groups with
    | none => none
    | some ⟨didFail2, s2, evs2⟩ => some ⟨if didFail2 then 1 else 0, s2, evs1 ++ evs2⟩

/-- The function `main`, from the parsed flags on; the result is the exit status
of the process. -/
def main {σ : Type} (rt : GoRuntime) (w : World σ) (fl : Flags) (fuel : Nat) (s : σ) :
    Option (Run σ Nat) :=
  if fl.sync = "" ∨ fl.harbor_url = "" ∨ fl.harbor_login = "" ∨ fl.harbor_pass = "" then
    some ⟨0, s, [.print .printDefaults]⟩
  else
    let r := mainSyncTypes rt (splitComma fl.sync.data []) false false []
    (mainRun rt w fl r.1 r.2.1 fuel s).map (Run.afterAll r.2.2)

/-! ## Vocabulary of the specification -/

/-- The settings request made in state `s` is answered with status 200 and the
decoded settings map `rawCfg`. -/
def Fetched {σ : Type} (w : World σ) (s : σ) (rawCfg : RawCfg) : Prop :=
  ∃ resp s1, w.getConfigurations s = (.ok resp, s1) ∧ resp.code = 200 ∧ resp.result = rawCfg

/-- The key is absent from the settings map or holds a non-empty string. -/
def StringOk (rawCfg : RawCfg) (key : String) : Prop :=
  rawCfg key = none ∨ ∃ x, rawCfg key = some (.string x) ∧ x ≠ ""

/-- The key is absent from the settings map or holds a number. -/
def NumberOk (rawCfg : RawCfg) (key : String) : Prop :=
  rawCfg key = none ∨ ∃ vv, rawCfg key = some (.number vv)

/-- The key is absent from the settings map or holds a boolean. -/
def BoolOk (rawCfg : RawCfg) (key : String) : Prop :=
  rawCfg key = none ∨ ∃ b, rawCfg key = some (.bool b)

/-- The dynamic types that `getLdapConfig` asserts. -/
inductive Kind where
  | string
  | number
  | bool
  deriving DecidableEq, Repr

/-- The value has the dynamic type that the assertion asks for. -/
def Kind.admits : Kind → JsonValue → Bool
  | .string, .string _ => true
  | .number, .number _ => true
  | .bool, .bool _ => true
  | _, _ => false

/-- The word the error message uses for the expected type. -/
def Kind.want : Kind → String
  | .string => "string"
  | .number => "int"
  | .bool => "bool"

/-- The recognized keys with the type asserted for each, in the order in which
`getLdapConfig` checks them. -/
def recognized : List (String × Kind) :=
  [("ldap_url", .string), ("ldap_search_dn", .string), ("ldap_group_base_dn", .string),
   ("ldap_group_search_filter", .string), ("ldap_group_attribute_name", .string),
   ("ldap_group_search_scope", .number), ("ldap_verify_cert", .bool)]

/-- The required keys, in the order in which `getLdapConfig` checks them. -/
def required : List String :=
  ["ldap_url", "ldap_search_dn", "ldap_group_base_dn", "ldap_group_search_filter"]

/-- The recognized key passes its check: it is absent, or well-typed and, for a
string setting, not empty. -/
def KeyOk (rawCfg : RawCfg) (p : String × Kind) : Prop :=
  match p.2 with
  | .string => StringOk rawCfg p.1
  | .number => NumberOk rawCfg p.1
  | .bool => BoolOk rawCfg p.1

/-- The string a valid settings map gives to a string setting. -/
def stringOr (rawCfg : RawCfg) (key cur : String) : String :=
  match rawCfg key with
  | some (.string x) => x
  | _ => cur

/-! ## A concrete runtime, target system and directory

They serve to run the program on concrete inputs.  The simulated target system
keeps a list of users and a list of group DNs, serves both in consecutive pages
(page `i` of size `n` holds the items `n * i` to `n * i + n - 1`), and adds what
an import or a create-group request submits. -/

/-- A Go runtime for concrete runs on strings, booleans and ASCII text.  `%v`
is rendered for null, booleans and strings; the text for numbers, arrays and
objects stands in for the digits and brackets that `fmt` would print, and
`toLower` lowers the ASCII letters only. -/
def sampleRuntime : GoRuntime where
  fmtV := fun v =>
    match v with
    | .null => "<nil>"
    | .bool b => if b then "true" else "false"
    | .string x => x
    | .number _ => "<float64>"
    | .array _ => "<slice>"
    | .object _ => "<map>"
  intOutOfRange := fun _ => -(2 : Int) ^ 63
  mapRange := fun keys => keys
  mapRange_perm := fun keys => List.Perm.refl keys
  toLower := fun x => String.mk (x.data.map Char.toLower)

/-- The items of page `i` when the pages have size `pageSize`. -/
def page (items : List String) (pageSize i : Nat) : List String :=
  (items.drop (pageSize * i)).take pageSize

/-- A response with status 200. -/
def ok200 {α : Type} (result : α) : Resp α := ⟨200, "200 OK", "", result⟩

/-- The state of the simulated target system. -/
structure SimState where
  users : List String
  groups : List String
  deriving DecidableEq, Repr

/-- What a simulated world is set up with: the usernames the LDAP-user search
returns, the settings map, the entries the directory search returns and the
group DNs whose creation the target system refuses with status 500. -/
structure SimSetup where
  ldapUsers : List String
  rawCfg : RawCfg
  entries : List Entry
  rejected : List String

/-- The simulated world. -/
def simWorld (cf : SimSetup) : World SimState where
  getLdapUsersSearch := fun s => (.ok (ok200 cf.ldapUsers), s)
  getUsers := fun i n s => (.ok (ok200 (page s.users n i)), s)
  postLdapUsersImport := fun l s => (.ok (ok200 ()), { s with users := s.users ++ l })
  getConfigurations := fun s => (.ok (ok200 cf.rawCfg), s)
  getUsergroups := fun i n s => (.ok (ok200 (page s.groups n i)), s)
  postUsergroups := fun g s =>
    if g.ldap_group_dn ∈ cf.rejected then
      (.ok ⟨500, "500 Internal Server Error", "rejected", ()⟩, s)
    else if g.ldap_group_dn ∈ s.groups then (.ok ⟨409, "409 Conflict", "", ()⟩, s)
    else (.ok ⟨201, "201 Created", "", ()⟩, { s with groups := s.groups ++ [g.ldap_group_dn] })
  dialURL := fun _ _ s => (none, s)
  bind := fun _ _ s => (none, s)
  search := fun _ s => (.ok cf.entries, s)

/-- A settings map with every recognized key present and valid, the scope
being 5. -/
def sampleCfg : RawCfg := fun key =>
  if key = "ldap_url" then some (.string "ldaps://ldap.example.org")
  else if key = "ldap_search_dn" then some (.string "cn=admin,dc=example,dc=org")
  else if key = "ldap_group_base_dn" then some (.string "ou=groups,dc=example,dc=org")
  else if key = "ldap_group_search_filter" then some (.string "(objectClass=groupOfNames)")
  else if key = "ldap_group_attribute_name" then some (.string "cn")
  else if key = "ldap_group_search_scope" then some (.number 5)
  else if key = "ldap_verify_cert" then some (.bool false)
  else none

/-- A settings map that holds only the url. -/
def urlOnlyCfg : RawCfg := fun key =>
  if key = "ldap_url" then some (.string "ldaps://ldap.example.org") else none

/-- A settings map in which `ldap_verify_cert` holds a string and `ldap_url`
is empty. -/
def emptyUrlStringCertCfg : RawCfg := fun key =>
  if key = "ldap_url" then some (.string "")
  else if key = "ldap_verify_cert" then some (.string "yes")
  else none

/-- A settings map in which `ldap_verify_cert` holds a string and nothing
else is present. -/
def stringCertCfg : RawCfg := fun key =>
  if key = "ldap_verify_cert" then some (.string "yes") else none

/-- A settings map in which `ldap_url` holds a boolean and `ldap_search_dn`
is empty. -/
def boolUrlEmptyDnCfg : RawCfg := fun key =>
  if key = "ldap_url" then some (.bool true)
  else if key = "ldap_search_dn" then some (.string "")
  else none

/-- A settings map in which `ldap_search_dn` is empty and nothing else is
present. -/
def emptyDnCfg : RawCfg := fun key =>
  if key = "ldap_search_dn" then some (.string "") else none

/-- A simulated world that serves the given settings map. -/
def cfgWorld (rawCfg : RawCfg) : World SimState :=
  simWorld { ldapUsers := [], rawCfg := rawCfg, entries := [], rejected := [] }

deriving instance DecidableEq for Except

/-! ## Reading the events of a run -/

/-- The page numbers of the user-list requests, in order. -/
def usersListPages : List Event → List Nat
  | [] => []
  | .http (.usersList i _) _ :: evs => i :: usersListPages evs
  | _ :: evs => usersListPages evs

/-- The page numbers of the group-list requests, in order. -/
def groupsListPages : List Event → List Nat
  | [] => []
  | .http (.usergroupsList i _) _ :: evs => i :: groupsListPages evs
  | _ :: evs => groupsListPages evs

/-- The `ldap_uid_list` bodies of the import requests, in order. -/
def importRequests : List Event → List (List String)
  | [] => []
  | .http (.ldapUsersImport l) _ :: evs => l :: importRequests evs
  | _ :: evs => importRequests evs

/-- The create-group requests with the outcome of each, in order. -/
def createCalls : List Event → List (GroupBody × Http Unit)
  | [] => []
  | .http (.usergroupsCreate g) out :: evs => (g, out) :: createCalls evs
  | _ :: evs => createCalls evs

/-- The requests of the directory searches, in order. -/
def searchCalls : List Event → List SearchRequest
  | [] => []
  | .ldapSearch req _ :: evs => req :: searchCalls evs
  | _ :: evs => searchCalls evs

/-- The bodies of the create-group requests, in order. -/
def createRequests (evs : List Event) : List GroupBody :=
  (createCalls evs).map Prod.fst

/-! ## Pages, the map of `syncUsers` and the answers to create-group requests -/

/-- From state `s` on, the user-list requests for the pages `i`, `i + 1`, ... are
answered with status 200 and the successive lists of `pages`, and leave the
outside world in state `s1`. -/
def ServesUsers {σ : Type} (w : World σ) : Nat → σ → List (List String) → σ → Prop
  | _, s, [], s1 => s = s1
  | i, s, p :: pages, s1 =>
    ∃ resp s2, w.getUsers i 100 s = (.ok resp, s2) ∧ resp.code = 200 ∧ resp.result = p ∧
      ServesUsers w (i + 1) s2 pages s1

/-- From state `s` on, the group-list requests for the pages `i`, `i + 1`, ...
are answered with status 200 and the successive lists of `pages`, and leave the
outside world in state `s1`. -/
def ServesGroups {σ : Type} (w : World σ) : Nat → σ → List (List String) → σ → Prop
  | _, s, [], s1 => s = s1
  | i, s, p :: pages, s1 =>
    ∃ resp s2, w.getUsergroups i 100 s = (.ok resp, s2) ∧ resp.code = 200 ∧ resp.result = p ∧
      ServesGroups w (i + 1) s2 pages s1

/-- The consecutive pages of size 100 of a list of items, up to and including
the first one with fewer than 100 items. -/
def pagesOf (items : List String) : List (List String) :=
  (List.range (items.length / 100 + 1)).map (page items 100)

/-- The map that `syncUsers` holds when its page loop has ended. -/
def remaining (search : List String) (pages : List (List String)) : List String :=
  pages.foldl (fun m p => p.foldl mapDelete m) (search.foldl mapInsert [])

/-- The create-group request was answered with status 201 or 409. -/
def Accepted (out : Http Unit) : Prop :=
  ∃ resp, out = .ok resp ∧ (resp.code = 201 ∨ resp.code = 409)

/-- The entries of the search result whose DN is not in `existingGroups`, in
search-result order. -/
def missing (existingGroups : List String) (entries : List Entry) : List Entry :=
  entries.filter fun e => decide (e.DN ∉ existingGroups)

/-! ## Concrete scenarios -/

/-- A setup with the given directory users and nothing else. -/
def usersSetup (ldapUsers : List String) : SimSetup :=
  { ldapUsers := ldapUsers, rawCfg := fun _ => none, entries := [], rejected := [] }

/-- A simulated world with the given directory users and nothing else. -/
def usersWorld (ldapUsers : List String) : World SimState :=
  simWorld (usersSetup ldapUsers)

/-- The users of the scenario of the specification: "alice" and 99 others. -/
def aliceAndOthers : List String := "alice" :: List.replicate 99 "carol"

/-- A directory entry with the given DN and common name. -/
def groupEntry (dn cn : String) : Entry := ⟨dn, [("cn", [cn])]⟩

/-- The search result of the group runs: four entries, the DN "cn=dev"
occurring twice. -/
def sampleEntries : List Entry :=
  [groupEntry "cn=dev" "dev", groupEntry "cn=ops" "ops", groupEntry "cn=dev" "dev",
    groupEntry "cn=qa" "qa"]

/-- A setup for group runs: the settings of `sampleCfg`, the entries of
`sampleEntries` in the directory and the given DNs refused by the target
system. -/
def groupsSetup (rejected : List String) : SimSetup :=
  { ldapUsers := [], rawCfg := sampleCfg, entries := sampleEntries, rejected := rejected }

/-- The configuration that `getLdapConfig` reads from `sampleCfg`. -/
def sampleLdapConfig : ldapConfig :=
  ⟨"ldaps://ldap.example.org", "cn=admin,dc=example,dc=org", "ou=groups,dc=example,dc=org",
    "(objectClass=groupOfNames)", "cn", 5, false⟩

/-- A setup whose settings map holds at most the scope key, with the given
value. -/
def scopeSetup (v : Option JsonValue) : SimSetup :=
  { ldapUsers := [], entries := [], rejected := [],
    rawCfg := fun key => if key = "ldap_group_search_scope" then v else none }

/-- The scopes of the directory searches of a `syncGroups` run on
`scopeSetup v`. -/
def scopesSearched (v : Option JsonValue) : Option (List Scope) :=
  (syncGroups sampleRuntime (simWorld (scopeSetup v)) "" false 1 ⟨[], []⟩).map
    fun run => (searchCalls run.events).map fun req => req.scope

/-- The flags `-sync users,groups` with the required flags set. -/
def bothFlags : Flags :=
  { sync := "Users, groups", harbor_url := "https://harbor.example.org", harbor_login := "admin",
    harbor_pass := "Harbor12345", ldap_pass := "secret", verbose := false }

/-- A setup in which the LDAP-user search of the target system fails with
status 500 while the group side works. -/
def failingUsersWorld : World SimState :=
  { simWorld (groupsSetup []) with
    getLdapUsersSearch := fun s => (.ok ⟨500, "500 Internal Server Error", "boom", []⟩, s) }

/-! # Properties -/

/-! ## `getLdapConfig` -/

theorem getLdapConfig_ret {σ : Type} (rt : GoRuntime) (w : World σ) (verbose : Bool) (s : σ)
    (rawCfg : RawCfg) (h : Fetched w s rawCfg) :
    (getLdapConfig rt w verbose s).ret = getLdapConfig.resolve rt rawCfg := by
  obtain ⟨resp, s1, hget, hcode, hres⟩ := h
  simp [getLdapConfig, hget, hcode, hres]

theorem stringSetting_of_ok (rt : GoRuntime) (rawCfg : RawCfg) (key cur : String)
    (h : StringOk rawCfg key) :
    getLdapConfig.stringSetting rt rawCfg key cur = .ok (stringOr rawCfg key cur) := by
  rcases h with h | ⟨x, h, hx⟩
  · simp [getLdapConfig.stringSetting, stringOr, h]
  · simp [getLdapConfig.stringSetting, stringOr, h, hx]

theorem stringSetting_inv (rt : GoRuntime) (rawCfg : RawCfg) (key cur y : String)
    (h : getLdapConfig.stringSetting rt rawCfg key cur = .ok y) :
    StringOk rawCfg key ∧ y = stringOr rawCfg key cur := by
  unfold getLdapConfig.stringSetting at h
  split at h
  · next hk => exact ⟨Or.inl hk, by simp [stringOr, hk] at *; exact h.symm⟩
  · next x hk =>
    by_cases hx : x = ""
    · simp [hx] at h
    · simp [hx] at h
      exact ⟨Or.inr ⟨x, hk, hx⟩, by simp [stringOr, hk]; exact h.symm⟩
  · simp at h

theorem stringSetting_empty (rt : GoRuntime) (rawCfg : RawCfg) (key cur : String)
    (h : rawCfg key = some (.string "")) :
    getLdapConfig.stringSetting rt rawCfg key cur = .error (key ++ " is missing") := by
  simp [getLdapConfig.stringSetting, h]

theorem stringSetting_mistyped (rt : GoRuntime) (rawCfg : RawCfg) (key cur : String)
    (v : JsonValue) (h : rawCfg key = some v) (hv : Kind.admits .string v = false) :
    getLdapConfig.stringSetting rt rawCfg key cur = .error (typeError rt key "string" v) := by
  cases v <;> simp [getLdapConfig.stringSetting, h, Kind.admits] at hv ⊢



theorem resolve_inv (rt : GoRuntime) (rawCfg : RawCfg) (cfg : ldapConfig)
    (h : getLdapConfig.resolve rt rawCfg = .ok cfg) :
    (∀ p ∈ recognized, KeyOk rawCfg p) ∧
    cfg.url = stringOr rawCfg "ldap_url" "" ∧
    cfg.searchDN = stringOr rawCfg "ldap_search_dn" "" ∧
    cfg.groupBaseDN = stringOr rawCfg "ldap_group_base_dn" "" ∧
    cfg.groupFilter = stringOr rawCfg "ldap_group_search_filter" "" ∧
    cfg.groupAttr = stringOr rawCfg "ldap_group_attribute_name" "cn" ∧
    (rawCfg "ldap_group_search_scope" = none → cfg.scope = 2) ∧
    (∀ vv, rawCfg "ldap_group_search_scope" = some (.number vv) → cfg.scope = floatToInt rt vv) ∧
    (rawCfg "ldap_verify_cert" = none → cfg.verifyCert = true) ∧
    (∀ b, rawCfg "ldap_verify_cert" = some (.bool b) → cfg.verifyCert = b) := by
  unfold getLdapConfig.resolve at h
  simp only [bind, Except.bind, pure, Except.pure] at h
  cases h1 : getLdapConfig.stringSetting rt rawCfg "ldap_url" "" with
  | error e => simp [h1] at h
  | ok y1 =>
  cases h2 : getLdapConfig.stringSetting rt rawCfg "ldap_search_dn" "" with
  | error e => simp [h1, h2] at h
  | ok y2 =>
  cases h3 : getLdapConfig.stringSetting rt rawCfg "ldap_group_base_dn" "" with
  | error e => simp [h1, h2, h3] at h
  | ok y3 =>
  cases h4 : getLdapConfig.stringSetting rt rawCfg "ldap_group_search_filter" "" with
  | error e => simp [h1, h2, h3, h4] at h
  | ok y4 =>
  cases h5 : getLdapConfig.stringSetting rt rawCfg "ldap_group_attribute_name" "cn" with
  | error e => simp [h1, h2, h3, h4, h5] at h
  | ok y5 =>
  simp only [h1, h2, h3, h4, h5] at h
  obtain ⟨k1, e1⟩ := stringSetting_inv _ _ _ _ _ h1
  obtain ⟨k2, e2⟩ := stringSetting_inv _ _ _ _ _ h2
  obtain ⟨k3, e3⟩ := stringSetting_inv _ _ _ _ _ h3
  obtain ⟨k4, e4⟩ := stringSetting_inv _ _ _ _ _ h4
  obtain ⟨k5, e5⟩ := stringSetting_inv _ _ _ _ _ h5
  have key : (NumberOk rawCfg "ldap_group_search_scope" ∧ BoolOk rawCfg "ldap_verify_cert") ∧
      cfg.url = y1 ∧ cfg.searchDN = y2 ∧ cfg.groupBaseDN = y3 ∧ cfg.groupFilter = y4 ∧
      cfg.groupAttr = y5 ∧
      (rawCfg "ldap_group_search_scope" = none → cfg.scope = 2) ∧
      (∀ vv, rawCfg "ldap_group_search_scope" = some (.number vv) →
        cfg.scope = floatToInt rt vv) ∧
      (rawCfg "ldap_verify_cert" = none → cfg.verifyCert = true) ∧
      (∀ b, rawCfg "ldap_verify_cert" = some (.bool b) → cfg.verifyCert = b) := by
    rcases hs : rawCfg "ldap_group_search_scope" with _ | vs
    · rcases hb : rawCfg "ldap_verify_cert" with _ | vb
      · simp [hs, hb, throw, throwThe, MonadExceptOf.throw] at h
        subst h
        simp [NumberOk, BoolOk, hs, hb]
      · cases vb <;> simp [hs, hb, throw, throwThe, MonadExceptOf.throw] at h
        subst h
        simp [NumberOk, BoolOk, hs, hb]
    · cases vs <;> simp [hs, throw, throwThe, MonadExceptOf.throw] at h
      rcases hb : rawCfg "ldap_verify_cert" with _ | vb
      · simp [hs, hb, throw, throwThe, MonadExceptOf.throw] at h
        subst h
        simp [NumberOk, BoolOk, hs, hb]
      · cases vb <;> simp [hs, hb, throw, throwThe, MonadExceptOf.throw] at h
        subst h
        simp [NumberOk, BoolOk, hs, hb]
  obtain ⟨⟨kn, kb⟩, f1, f2, f3, f4, f5, rest⟩ := key
  refine ⟨?_, by rw [f1, e1], by rw [f2, e2], by rw [f3, e3], by rw [f4, e4], by rw [f5, e5], rest⟩
  intro p hp
  simp only [recognized, List.mem_cons, List.mem_singleton, List.not_mem_nil, or_false] at hp
  rcases hp with rfl | rfl | rfl | rfl | rfl | rfl | rfl <;> simp only [KeyOk] <;> assumption

theorem resolve_first_failure (rt : GoRuntime) (rawCfg : RawCfg) (pre post : List (String × Kind))
    (key : String) (kind : Kind) (hsplit : recognized = pre ++ (key, kind) :: post)
    (hpre : ∀ p ∈ pre, KeyOk rawCfg p) :
    (∀ v, rawCfg key = some v → kind.admits v = false →
      getLdapConfig.resolve rt rawCfg = .error (typeError rt key kind.want v)) ∧
    (kind = .string → rawCfg key = some (.string "") →
      getLdapConfig.resolve rt rawCfg = .error (key ++ " is missing")) := by
  unfold recognized at hsplit
  have hok := fun k c h => stringSetting_of_ok rt rawCfg k c h
  rcases pre with _ | ⟨p1, pre⟩
  · simp only [List.nil_append, List.cons.injEq, Prod.mk.injEq] at hsplit
    obtain ⟨⟨rfl, rfl⟩, -⟩ := hsplit
    refine ⟨fun v hv hk => ?_, fun _ he => ?_⟩
    · simp [getLdapConfig.resolve, bind, Except.bind, stringSetting_mistyped rt _ _ _ v hv hk,
        Kind.want]
    · simp [getLdapConfig.resolve, bind, Except.bind, stringSetting_empty rt _ _ _ he]
  rcases pre with _ | ⟨p2, pre⟩
  · simp only [List.cons_append, List.nil_append, List.cons.injEq, Prod.mk.injEq] at hsplit
    obtain ⟨rfl, ⟨rfl, rfl⟩, -⟩ := hsplit
    have g1 : StringOk rawCfg "ldap_url" := hpre ("ldap_url", .string) (by simp)
    refine ⟨fun v hv hk => ?_, fun _ he => ?_⟩
    · simp [getLdapConfig.resolve, bind, Except.bind, hok _ _ g1,
        stringSetting_mistyped rt _ _ _ v hv hk, Kind.want]
    · simp [getLdapConfig.resolve, bind, Except.bind, hok _ _ g1,
        stringSetting_empty rt _ _ _ he]
  rcases pre with _ | ⟨p3, pre⟩
  · simp only [List.cons_append, List.nil_append, List.cons.injEq, Prod.mk.injEq] at hsplit
    obtain ⟨rfl, rfl, ⟨rfl, rfl⟩, -⟩ := hsplit
    have g1 : StringOk rawCfg "ldap_url" := hpre ("ldap_url", .string) (by simp)
    have g2 : StringOk rawCfg "ldap_search_dn" := hpre ("ldap_search_dn", .string) (by simp)
    refine ⟨fun v hv hk => ?_, fun _ he => ?_⟩
    · simp [getLdapConfig.resolve, bind, Except.bind, hok _ _ g1, hok _ _ g2,
        stringSetting_mistyped rt _ _ _ v hv hk, Kind.want]
    · simp [getLdapConfig.resolve, bind, Except.bind, hok _ _ g1, hok _ _ g2,
        stringSetting_empty rt _ _ _ he]
  rcases pre with _ | ⟨p4, pre⟩
  · simp only [List.cons_append, List.nil_append, List.cons.injEq, Prod.mk.injEq] at hsplit
    obtain ⟨rfl, rfl, rfl, ⟨rfl, rfl⟩, -⟩ := hsplit
    have g1 : StringOk rawCfg "ldap_url" := hpre ("ldap_url", .string) (by simp)
    have g2 : StringOk rawCfg "ldap_search_dn" := hpre ("ldap_search_dn", .string) (by simp)
    have g3 : StringOk rawCfg "ldap_group_base_dn" := hpre ("ldap_group_base_dn", .string) (by simp)
    refine ⟨fun v hv hk => ?_, fun _ he => ?_⟩
    · simp [getLdapConfig.resolve, bind, Except.bind, hok _ _ g1, hok _ _ g2, hok _ _ g3,
        stringSetting_mistyped rt _ _ _ v hv hk, Kind.want]
    · simp [getLdapConfig.resolve, bind, Except.bind, hok _ _ g1, hok _ _ g2, hok _ _ g3,
        stringSetting_empty rt _ _ _ he]
  rcases pre with _ | ⟨p5, pre⟩
  · simp only [List.cons_append, List.nil_append, List.cons.injEq, Prod.mk.injEq] at hsplit
    obtain ⟨rfl, rfl, rfl, rfl, ⟨rfl, rfl⟩, -⟩ := hsplit
    have g1 : StringOk rawCfg "ldap_url" := hpre ("ldap_url", .string) (by simp)
    have g2 : StringOk rawCfg "ldap_search_dn" := hpre ("ldap_search_dn", .string) (by simp)
    have g3 : StringOk rawCfg "ldap_group_base_dn" := hpre ("ldap_group_base_dn", .string) (by simp)
    have g4 : StringOk rawCfg "ldap_group_search_filter" := hpre ("ldap_group_search_filter", .string) (by simp)
    refine ⟨fun v hv hk => ?_, fun _ he => ?_⟩
    · simp [getLdapConfig.resolve, bind, Except.bind, hok _ _ g1, hok _ _ g2, hok _ _ g3,
        hok _ _ g4, stringSetting_mistyped rt _ _ _ v hv hk, Kind.want]
    · simp [getLdapConfig.resolve, bind, Except.bind, hok _ _ g1, hok _ _ g2, hok _ _ g3,
        hok _ _ g4, stringSetting_empty rt _ _ _ he]
  rcases pre with _ | ⟨p6, pre⟩
  · simp only [List.cons_append, List.nil_append, List.cons.injEq, Prod.mk.injEq] at hsplit
    obtain ⟨rfl, rfl, rfl, rfl, rfl, ⟨rfl, rfl⟩, -⟩ := hsplit
    have g1 : StringOk rawCfg "ldap_url" := hpre ("ldap_url", .string) (by simp)
    have g2 : StringOk rawCfg "ldap_search_dn" := hpre ("ldap_search_dn", .string) (by simp)
    have g3 : StringOk rawCfg "ldap_group_base_dn" := hpre ("ldap_group_base_dn", .string) (by simp)
    have g4 : StringOk rawCfg "ldap_group_search_filter" := hpre ("ldap_group_search_filter", .string) (by simp)
    have g5 : StringOk rawCfg "ldap_group_attribute_name" := hpre ("ldap_group_attribute_name", .string) (by simp)
    refine ⟨fun v hv hk => ?_, fun hkind _ => by cases hkind⟩
    cases v <;> simp [Kind.admits] at hk <;>
      simp [getLdapConfig.resolve, bind, Except.bind, hok _ _ g1, hok _ _ g2, hok _ _ g3,
        hok _ _ g4, hok _ _ g5, hv, Kind.want, throw, throwThe, MonadExceptOf.throw]
  rcases pre with _ | ⟨p7, pre⟩
  · simp only [List.cons_append, List.nil_append, List.cons.injEq, Prod.mk.injEq] at hsplit
    obtain ⟨rfl, rfl, rfl, rfl, rfl, rfl, ⟨rfl, rfl⟩, -⟩ := hsplit
    have g1 : StringOk rawCfg "ldap_url" := hpre ("ldap_url", .string) (by simp)
    have g2 : StringOk rawCfg "ldap_search_dn" := hpre ("ldap_search_dn", .string) (by simp)
    have g3 : StringOk rawCfg "ldap_group_base_dn" := hpre ("ldap_group_base_dn", .string) (by simp)
    have g4 : StringOk rawCfg "ldap_group_search_filter" := hpre ("ldap_group_search_filter", .string) (by simp)
    have g5 : StringOk rawCfg "ldap_group_attribute_name" := hpre ("ldap_group_attribute_name", .string) (by simp)
    have g6 : NumberOk rawCfg "ldap_group_search_scope" := hpre ("ldap_group_search_scope", .number) (by simp)
    refine ⟨fun v hv hk => ?_, fun hkind _ => by cases hkind⟩
    rcases g6 with g6 | ⟨vv, g6⟩ <;> cases v <;> simp [Kind.admits] at hk <;>
      simp [getLdapConfig.resolve, bind, Except.bind, pure, Except.pure, hok _ _ g1, hok _ _ g2,
        hok _ _ g3, hok _ _ g4, hok _ _ g5, g6, hv, Kind.want, throw, throwThe,
        MonadExceptOf.throw]
  · simp at hsplit

theorem resolve_of_ok (rt : GoRuntime) (rawCfg : RawCfg) (h : ∀ p ∈ recognized, KeyOk rawCfg p) :
    ∃ cfg, getLdapConfig.resolve rt rawCfg = .ok cfg := by
  have g1 : StringOk rawCfg "ldap_url" := h ("ldap_url", .string) (by simp [recognized])
  have g2 : StringOk rawCfg "ldap_search_dn" := h ("ldap_search_dn", .string) (by simp [recognized])
  have g3 : StringOk rawCfg "ldap_group_base_dn" :=
    h ("ldap_group_base_dn", .string) (by simp [recognized])
  have g4 : StringOk rawCfg "ldap_group_search_filter" :=
    h ("ldap_group_search_filter", .string) (by simp [recognized])
  have g5 : StringOk rawCfg "ldap_group_attribute_name" :=
    h ("ldap_group_attribute_name", .string) (by simp [recognized])
  have g6 : NumberOk rawCfg "ldap_group_search_scope" :=
    h ("ldap_group_search_scope", .number) (by simp [recognized])
  have g7 : BoolOk rawCfg "ldap_verify_cert" := h ("ldap_verify_cert", .bool) (by simp [recognized])
  have hok := fun k c h => stringSetting_of_ok rt rawCfg k c h
  rcases g6 with g6 | ⟨vv, g6⟩ <;> rcases g7 with g7 | ⟨b, g7⟩ <;>
    simp [getLdapConfig.resolve, bind, Except.bind, pure, Except.pure, hok _ _ g1, hok _ _ g2,
      hok _ _ g3, hok _ _ g4, hok _ _ g5, g6, g7]


theorem keyOk_admits (rawCfg : RawCfg) (key : String) (kind : Kind) (v : JsonValue)
    (h : KeyOk rawCfg (key, kind)) (hv : rawCfg key = some v) : kind.admits v = true := by
  cases kind <;> simp only [KeyOk, StringOk, NumberOk, BoolOk, hv] at h
  · rcases h with h | ⟨x, h, -⟩
    · cases h
    · cases h; rfl
  · rcases h with h | ⟨x, h⟩
    · cases h
    · cases h; rfl
  · rcases h with h | ⟨x, h⟩
    · cases h
    · cases h; rfl

theorem resolve_error_of_not_ok (rt : GoRuntime) (rawCfg : RawCfg) (p : String × Kind)
    (hp : p ∈ recognized) (hbad : ¬ KeyOk rawCfg p) :
    ∃ msg, getLdapConfig.resolve rt rawCfg = .error msg := by
  cases h : getLdapConfig.resolve rt rawCfg with
  | error msg => exact ⟨msg, rfl⟩
  | ok cfg => exact absurd ((resolve_inv rt rawCfg cfg h).1 p hp) hbad

/-- C9. When the settings map is fetched with status 200 and every recognized
key is absent or valid (well-typed and, for a string setting, non-empty),
`getLdapConfig` succeeds; in the configuration it returns, the field of an
absent required key is the empty string, the field of a present one is the
string it holds, and `groupAttr`, `scope` and `verifyCert` are "cn", 2 and
true when their keys are absent. -/
theorem getLdapConfig_absent_keys {σ : Type} (rt : GoRuntime) (w : World σ) (verbose : Bool)
    (s : σ) (rawCfg : RawCfg) (hget : Fetched w s rawCfg)
    (hok : ∀ p ∈ recognized, KeyOk rawCfg p) :
    ∃ cfg, (getLdapConfig rt w verbose s).ret = .ok cfg ∧
      (rawCfg "ldap_url" = none → cfg.url = "") ∧
      (rawCfg "ldap_search_dn" = none → cfg.searchDN = "") ∧
      (rawCfg "ldap_group_base_dn" = none → cfg.groupBaseDN = "") ∧
      (rawCfg "ldap_group_search_filter" = none → cfg.groupFilter = "") ∧
      (∀ x, rawCfg "ldap_url" = some (.string x) → cfg.url = x) ∧
      (∀ x, rawCfg "ldap_search_dn" = some (.string x) → cfg.searchDN = x) ∧
      (∀ x, rawCfg "ldap_group_base_dn" = some (.string x) → cfg.groupBaseDN = x) ∧
      (∀ x, rawCfg "ldap_group_search_filter" = some (.string x) → cfg.groupFilter = x) ∧
      (rawCfg "ldap_group_attribute_name" = none → cfg.groupAttr = "cn") ∧
      (rawCfg "ldap_group_search_scope" = none → cfg.scope = 2) ∧
      (rawCfg "ldap_verify_cert" = none → cfg.verifyCert = true) := by
  obtain ⟨cfg, hcfg⟩ := resolve_of_ok rt rawCfg hok
  obtain ⟨-, e1, e2, e3, e4, e5, e6, -, e7, -⟩ := resolve_inv rt rawCfg cfg hcfg
  refine ⟨cfg, by rw [getLdapConfig_ret rt w verbose s rawCfg hget, hcfg], ?_, ?_, ?_, ?_, ?_, ?_,
    ?_, ?_, ?_, e6, e7⟩
  · intro h; rw [e1]; simp [stringOr, h]
  · intro h; rw [e2]; simp [stringOr, h]
  · intro h; rw [e3]; simp [stringOr, h]
  · intro h; rw [e4]; simp [stringOr, h]
  · intro x h; rw [e1]; simp [stringOr, h]
  · intro x h; rw [e2]; simp [stringOr, h]
  · intro x h; rw [e3]; simp [stringOr, h]
  · intro x h; rw [e4]; simp [stringOr, h]
  · intro h; rw [e5]; simp [stringOr, h]

theorem urlOnlyCfg_ok : ∀ p ∈ recognized, KeyOk urlOnlyCfg p := by
  intro p hp
  simp only [recognized, List.mem_cons, List.mem_singleton, List.not_mem_nil, or_false] at hp
  rcases hp with rfl | rfl | rfl | rfl | rfl | rfl | rfl
  · exact Or.inr ⟨"ldaps://ldap.example.org", rfl, by decide⟩
  all_goals exact Or.inl rfl

/-- A run of C9 on a settings map that holds only `ldap_url`. -/
theorem getLdapConfig_absent_keys_witness :
    (getLdapConfig sampleRuntime (cfgWorld urlOnlyCfg) false ⟨[], []⟩).ret =
      .ok ⟨"ldaps://ldap.example.org", "", "", "", "cn", 2, true⟩ := by
  obtain ⟨cfg, h, -, h2, h3, h4, h1, -, -, -, h5, h6, h7⟩ :=
    getLdapConfig_absent_keys sampleRuntime (cfgWorld urlOnlyCfg) false ⟨[], []⟩ urlOnlyCfg
      ⟨_, _, rfl, rfl, rfl⟩ urlOnlyCfg_ok
  rw [h]
  have e1 := h1 _ rfl
  have e2 := h2 rfl
  have e3 := h3 rfl
  have e4 := h4 rfl
  have e5 := h5 rfl
  have e6 := h6 rfl
  have e7 := h7 rfl
  cases cfg
  simp_all


theorem sampleCfg_ok : ∀ p ∈ recognized, p.1 ≠ "ldap_group_search_scope" → KeyOk sampleCfg p := by
  intro p hp hne
  simp only [recognized, List.mem_cons, List.mem_singleton, List.not_mem_nil, or_false] at hp
  rcases hp with rfl | rfl | rfl | rfl | rfl | rfl | rfl
  · exact Or.inr ⟨_, rfl, by decide⟩
  · exact Or.inr ⟨_, rfl, by decide⟩
  · exact Or.inr ⟨_, rfl, by decide⟩
  · exact Or.inr ⟨_, rfl, by decide⟩
  · exact Or.inr ⟨_, rfl, by decide⟩
  · exact absurd rfl hne
  · exact Or.inr ⟨_, rfl⟩

/-- C4, as amended. When the settings map is fetched with status 200 and a
recognized key is present with a value of the wrong dynamic type,
`getLdapConfig` returns an error and no configuration; when moreover every
recognized key that is checked before it is absent or valid, the message is
"<key> is not <type>: <value>(<observed type>)" for that key. -/
theorem getLdapConfig_type_mismatch {σ : Type} (rt : GoRuntime) (w : World σ) (verbose : Bool)
    (s : σ) (rawCfg : RawCfg) (hget : Fetched w s rawCfg)
    (pre post : List (String × Kind)) (key : String) (kind : Kind) (v : JsonValue)
    (hsplit : recognized = pre ++ (key, kind) :: post)
    (hv : rawCfg key = some v) (hbad : kind.admits v = false) :
    (∃ msg, (getLdapConfig rt w verbose s).ret = .error msg) ∧
    ((∀ p ∈ pre, KeyOk rawCfg p) →
      (getLdapConfig rt w verbose s).ret = .error (typeError rt key kind.want v)) := by
  rw [getLdapConfig_ret rt w verbose s rawCfg hget]
  refine ⟨?_, fun hpre => (resolve_first_failure rt rawCfg pre post key kind hsplit hpre).1 v hv hbad⟩
  refine resolve_error_of_not_ok rt rawCfg (key, kind) (by rw [hsplit]; simp) fun hk => ?_
  rw [keyOk_admits rawCfg key kind v hk hv] at hbad
  cases hbad

theorem stringCertCfg_pre :
    ∀ p ∈ [("ldap_url", Kind.string), ("ldap_search_dn", .string), ("ldap_group_base_dn", .string),
      ("ldap_group_search_filter", .string), ("ldap_group_attribute_name", .string),
      ("ldap_group_search_scope", .number)], KeyOk stringCertCfg p := by
  intro p hp
  simp only [List.mem_cons, List.mem_singleton, List.not_mem_nil, or_false] at hp
  rcases hp with rfl | rfl | rfl | rfl | rfl | rfl <;> exact Or.inl rfl

/-- A run of C4 on a settings map in which only `ldap_verify_cert` is present
and holds the string "yes". -/
theorem getLdapConfig_type_mismatch_witness :
    (getLdapConfig sampleRuntime (cfgWorld stringCertCfg) false ⟨[], []⟩).ret =
      .error "ldap_verify_cert is not bool: yes(string)" :=
  (getLdapConfig_type_mismatch sampleRuntime (cfgWorld stringCertCfg) false ⟨[], []⟩ stringCertCfg
    ⟨_, _, rfl, rfl, rfl⟩
    [("ldap_url", .string), ("ldap_search_dn", .string), ("ldap_group_base_dn", .string),
      ("ldap_group_search_filter", .string), ("ldap_group_attribute_name", .string),
      ("ldap_group_search_scope", .number)]
    [] "ldap_verify_cert" .bool (.string "yes") rfl rfl rfl).2
    stringCertCfg_pre

/-- C4 fails as stated: in this settings map `ldap_verify_cert` holds a string,
yet the error of `getLdapConfig` is the one of the empty `ldap_url`, which is
checked first, and does not name `ldap_verify_cert`. -/
theorem getLdapConfig_type_mismatch_counterexample :
    emptyUrlStringCertCfg "ldap_verify_cert" = some (.string "yes") ∧
    Kind.admits .bool (.string "yes") = false ∧
    (getLdapConfig sampleRuntime (cfgWorld emptyUrlStringCertCfg) false ⟨[], []⟩).ret =
      .error "ldap_url is missing" ∧
    (getLdapConfig sampleRuntime (cfgWorld emptyUrlStringCertCfg) false ⟨[], []⟩).ret ≠
      .error (typeError sampleRuntime "ldap_verify_cert" "bool" (.string "yes")) :=
  ⟨rfl, rfl, by decide, by decide⟩


theorem recognized_of_required (pre post : List String) (key : String)
    (h : required = pre ++ key :: post) :
    recognized = pre.map (fun k => (k, Kind.string)) ++ (key, Kind.string) ::
      (post.map (fun k => (k, Kind.string)) ++
        [("ldap_group_attribute_name", .string), ("ldap_group_search_scope", .number),
          ("ldap_verify_cert", .bool)]) := by
  have hr : recognized = required.map (fun k => (k, Kind.string)) ++
      [("ldap_group_attribute_name", .string), ("ldap_group_search_scope", .number),
        ("ldap_verify_cert", .bool)] := rfl
  rw [hr, h]
  simp

theorem first_empty_required (rawCfg : RawCfg) (pre : List String) :
    ∀ (seen post : List String) (key : String), required = seen ++ pre ++ key :: post →
      (∀ k ∈ seen, StringOk rawCfg k) →
      (∀ k ∈ pre, rawCfg k = none ∨ ∃ x, rawCfg k = some (.string x)) →
      rawCfg key = some (.string "") →
      ∃ pre1 key1 post1, required = pre1 ++ key1 :: post1 ∧ rawCfg key1 = some (.string "") ∧
        ∀ k ∈ pre1, StringOk rawCfg k := by
  induction pre with
  | nil =>
    intro seen post key hsplit hseen _ hkey
    exact ⟨seen, key, post, by simpa using hsplit, hkey, hseen⟩
  | cons a pre ih =>
    intro seen post key hsplit hseen hpre hkey
    by_cases ha : rawCfg a = some (.string "")
    · exact ⟨seen, a, pre ++ key :: post, by simpa using hsplit, ha, hseen⟩
    · refine ih (seen ++ [a]) post key (by simpa using hsplit) ?_
        (fun k hk => hpre k (List.mem_cons_of_mem a hk)) hkey
      intro k hk
      rcases List.mem_append.1 hk with hk | hk
      · exact hseen k hk
      · rw [List.mem_singleton] at hk
        subst hk
        rcases hpre k (List.mem_cons_self k pre) with h | ⟨x, h⟩
        · exact Or.inl h
        · exact Or.inr ⟨x, h, fun hx => ha (by rw [h, hx])⟩

/-- C5, as amended. When the settings map is fetched with status 200 and a
required key is present and holds the empty string, `getLdapConfig` fails;
when moreover every required key that is checked before it is absent or holds
a string, the message is "<key> is missing" for a required key that holds the
empty string.  Consequently, whenever `getLdapConfig` succeeds, each of `url`,
`searchDN`, `groupBaseDN` and `groupFilter` is non-empty if its key is present
in the settings map. -/
theorem getLdapConfig_empty_required {σ : Type} (rt : GoRuntime) (w : World σ) (verbose : Bool)
    (s : σ) (rawCfg : RawCfg) (hget : Fetched w s rawCfg) :
    (∀ pre post key, required = pre ++ key :: post → rawCfg key = some (.string "") →
      (∃ msg, (getLdapConfig rt w verbose s).ret = .error msg) ∧
      ((∀ k ∈ pre, rawCfg k = none ∨ ∃ x, rawCfg k = some (.string x)) →
        ∃ key1 ∈ required, rawCfg key1 = some (.string "") ∧
          (getLdapConfig rt w verbose s).ret = .error (key1 ++ " is missing"))) ∧
    (∀ cfg, (getLdapConfig rt w verbose s).ret = .ok cfg →
      (rawCfg "ldap_url" ≠ none → cfg.url ≠ "") ∧
      (rawCfg "ldap_search_dn" ≠ none → cfg.searchDN ≠ "") ∧
      (rawCfg "ldap_group_base_dn" ≠ none → cfg.groupBaseDN ≠ "") ∧
      (rawCfg "ldap_group_search_filter" ≠ none → cfg.groupFilter ≠ "")) := by
  rw [getLdapConfig_ret rt w verbose s rawCfg hget]
  refine ⟨fun pre post key hsplit hkey => ⟨?_, fun hpre => ?_⟩, fun cfg hcfg => ?_⟩
  · refine resolve_error_of_not_ok rt rawCfg (key, .string)
      (by rw [recognized_of_required pre post key hsplit]; simp) fun hk => ?_
    rcases hk with hk | ⟨x, hk, hx⟩
    · rw [hkey] at hk; cases hk
    · rw [hkey] at hk; cases hk; exact hx rfl
  · obtain ⟨pre1, key1, post1, hsplit1, hkey1, hpre1⟩ :=
      first_empty_required rawCfg pre [] post key (by simpa using hsplit) (by simp) hpre hkey
    refine ⟨key1, by rw [hsplit1]; simp, hkey1, ?_⟩
    refine (resolve_first_failure rt rawCfg _ _ key1 .string
      (recognized_of_required pre1 post1 key1 hsplit1) ?_).2 rfl hkey1
    intro p hp
    obtain ⟨k, hk, rfl⟩ := List.mem_map.1 hp
    exact hpre1 k hk
  · obtain ⟨hall, e1, e2, e3, e4, -⟩ := resolve_inv rt rawCfg cfg hcfg
    have nonempty : ∀ k cur, StringOk rawCfg k → rawCfg k ≠ none → stringOr rawCfg k cur ≠ "" := by
      intro k cur hk hne
      rcases hk with hk | ⟨x, hk, hx⟩
      · exact absurd hk hne
      · simpa [stringOr, hk] using hx
    refine ⟨?_, ?_, ?_, ?_⟩
    · rw [e1]; exact nonempty _ _ (hall ("ldap_url", .string) (by simp [recognized]))
    · rw [e2]; exact nonempty _ _ (hall ("ldap_search_dn", .string) (by simp [recognized]))
    · rw [e3]; exact nonempty _ _ (hall ("ldap_group_base_dn", .string) (by simp [recognized]))
    · rw [e4]; exact nonempty _ _ (hall ("ldap_group_search_filter", .string) (by simp [recognized]))

/-- A run of C5 on a settings map in which only `ldap_search_dn` is present and
is empty. -/
theorem getLdapConfig_empty_required_witness :
    ∃ key1 ∈ required, emptyDnCfg key1 = some (.string "") ∧
      (getLdapConfig sampleRuntime (cfgWorld emptyDnCfg) false ⟨[], []⟩).ret =
        .error (key1 ++ " is missing") :=
  ((getLdapConfig_empty_required sampleRuntime (cfgWorld emptyDnCfg) false ⟨[], []⟩ emptyDnCfg
    ⟨_, _, rfl, rfl, rfl⟩).1 ["ldap_url"] ["ldap_group_base_dn", "ldap_group_search_filter"]
    "ldap_search_dn" rfl rfl).2 (by
      intro k hk
      rw [List.mem_singleton] at hk
      subst hk
      exact Or.inl rfl)

/-- C5 fails as stated: in this settings map the required key `ldap_search_dn`
holds the empty string, yet the error of `getLdapConfig` is the type error of
`ldap_url`, which is checked first, and is "<key> is missing" for no key. -/
theorem getLdapConfig_empty_required_counterexample :
    boolUrlEmptyDnCfg "ldap_search_dn" = some (.string "") ∧
    (getLdapConfig sampleRuntime (cfgWorld boolUrlEmptyDnCfg) false ⟨[], []⟩).ret =
      .error "ldap_url is not string: true(bool)" ∧
    ∀ key ∈ required,
      (getLdapConfig sampleRuntime (cfgWorld boolUrlEmptyDnCfg) false ⟨[], []⟩).ret ≠
        .error (key ++ " is missing") := by
  refine ⟨rfl, by decide, ?_⟩
  intro key hkey
  simp only [required, List.mem_cons, List.mem_singleton, List.not_mem_nil, or_false] at hkey
  rcases hkey with rfl | rfl | rfl | rfl <;> decide


/-! ## Maps used as sets -/

theorem mem_mapDelete (m : List String) (k x : String) :
    x ∈ mapDelete m k ↔ x ∈ m ∧ x ≠ k := by
  simp [mapDelete]

theorem nodup_mapDelete (m : List String) (k : String) (h : m.Nodup) : (mapDelete m k).Nodup :=
  h.filter _

theorem mem_foldl_mapDelete (p : List String) : ∀ (m : List String) (x : String),
    x ∈ p.foldl mapDelete m ↔ x ∈ m ∧ x ∉ p := by
  induction p with
  | nil => intro m x; simp
  | cons a p ih =>
    intro m x
    rw [List.foldl_cons, ih, mem_mapDelete]
    simp only [List.mem_cons, not_or]
    tauto

theorem nodup_foldl_mapDelete (p : List String) : ∀ (m : List String), m.Nodup →
    (p.foldl mapDelete m).Nodup := by
  induction p with
  | nil => intro m h; exact h
  | cons a p ih => intro m h; exact ih _ (nodup_mapDelete m a h)

theorem mem_mapInsert (m : List String) (k x : String) :
    x ∈ mapInsert m k ↔ x ∈ m ∨ x = k := by
  unfold mapInsert
  split_ifs with h
  · constructor
    · exact Or.inl
    · rintro (h1 | rfl)
      · exact h1
      · exact h
  · simp

theorem nodup_mapInsert (m : List String) (k : String) (h : m.Nodup) : (mapInsert m k).Nodup := by
  unfold mapInsert
  split_ifs with hk
  · exact h
  · exact List.Nodup.append h (List.nodup_singleton k) (by simpa using hk)

theorem mem_foldl_mapInsert (l : List String) : ∀ (m : List String) (x : String),
    x ∈ l.foldl mapInsert m ↔ x ∈ m ∨ x ∈ l := by
  induction l with
  | nil => intro m x; simp
  | cons a l ih =>
    intro m x
    rw [List.foldl_cons, ih, mem_mapInsert]
    simp only [List.mem_cons]
    tauto

theorem nodup_foldl_mapInsert (l : List String) : ∀ (m : List String), m.Nodup →
    (l.foldl mapInsert m).Nodup := by
  induction l with
  | nil => intro m h; exact h
  | cons a l ih => intro m h; exact ih _ (nodup_mapInsert m a h)

/-- The map left by the page loop of `syncUsers` after the given pages. -/
theorem mem_foldl_pages (pages : List (List String)) : ∀ (m : List String) (x : String),
    x ∈ pages.foldl (fun m p => p.foldl mapDelete m) m ↔ x ∈ m ∧ ∀ p ∈ pages, x ∉ p := by
  induction pages with
  | nil => intro m x; simp
  | cons a pages ih =>
    intro m x
    rw [List.foldl_cons, ih, mem_foldl_mapDelete]
    simp only [List.mem_cons, forall_eq_or_imp]
    tauto

theorem nodup_foldl_pages (pages : List (List String)) : ∀ (m : List String), m.Nodup →
    (pages.foldl (fun m p => p.foldl mapDelete m) m).Nodup := by
  induction pages with
  | nil => intro m h; exact h
  | cons a pages ih => intro m h; exact ih _ (nodup_foldl_mapDelete a m h)

/-! ## The page loops -/

theorem syncUsers_pages_spec {σ : Type} (w : World σ) (last : List String)
    (hlast : last.length < 100) :
    ∀ (full : List (List String)) (i : Nat) (s s1 : σ) (m : List String) (fuel : Nat),
      (∀ p ∈ full, 100 ≤ p.length) → ServesUsers w i s (full ++ [last]) s1 →
      full.length < fuel →
      ∃ evs, syncUsers.pages w fuel i m s =
          some ⟨.ok ((full ++ [last]).foldl (fun m p => p.foldl mapDelete m) m), s1, evs⟩ ∧
        usersListPages evs = List.range' i (full.length + 1) ∧
        ∀ e ∈ evs, ∃ j r, e = Event.http (.usersList j 100) (.ok r) := by
  intro full
  induction full with
  | nil =>
    intro i s s1 m fuel _ hserve hfuel
    obtain ⟨resp, s2, hget, hcode, hres, hrest⟩ := hserve
    obtain ⟨fuel, rfl⟩ : ∃ k, fuel = k + 1 := ⟨fuel - 1, by simp at hfuel; omega⟩
    have hs : s2 = s1 := hrest
    subst hs
    subst hres
    refine ⟨[Event.http (.usersList i 100) (Http.forget (.ok resp))], ?_, ?_, ?_⟩
    · simp [syncUsers.pages, hget, hcode, hlast]
    · simp [usersListPages, List.range']
    · intro e he
      rw [List.mem_singleton] at he
      exact ⟨_, _, he⟩
  | cons a full ih =>
    intro i s s1 m fuel hfull hserve hfuel
    obtain ⟨resp, s2, hget, hcode, hres, hrest⟩ := hserve
    obtain ⟨fuel, rfl⟩ : ∃ k, fuel = k + 1 := ⟨fuel - 1, by simp at hfuel; omega⟩
    subst hres
    have ha : ¬ resp.result.length < 100 := by
      have := hfull resp.result (List.mem_cons_self _ _)
      omega
    obtain ⟨evs, hrun, hpages, hevs⟩ := ih (i + 1) s2 s1 (resp.result.foldl mapDelete m) fuel
      (fun p hp => hfull p (List.mem_cons_of_mem _ hp)) hrest (by simp at hfuel; omega)
    refine ⟨Event.http (.usersList i 100) (Http.forget (.ok resp)) :: evs, ?_, ?_, ?_⟩
    · simp [syncUsers.pages, hget, hcode, ha, hrun, Run.after]
    · simp [usersListPages, hpages, List.range']
    · intro e he
      rcases List.mem_cons.1 he with rfl | he
      · exact ⟨_, _, rfl⟩
      · exact hevs e he

theorem mem_foldl_insert_pages (pages : List (List String)) : ∀ (m : List String) (x : String),
    x ∈ pages.foldl (fun m p => p.foldl mapInsert m) m ↔ x ∈ m ∨ ∃ p ∈ pages, x ∈ p := by
  induction pages with
  | nil => intro m x; simp
  | cons a pages ih =>
    intro m x
    rw [List.foldl_cons, ih, mem_foldl_mapInsert]
    simp only [List.mem_cons, exists_eq_or_imp]
    tauto

theorem syncGroups_pages_spec {σ : Type} (w : World σ) (last : List String)
    (hlast : last.length < 100) :
    ∀ (full : List (List String)) (i : Nat) (s s1 : σ) (m : List String) (fuel : Nat),
      (∀ p ∈ full, 100 ≤ p.length) → ServesGroups w i s (full ++ [last]) s1 →
      full.length < fuel →
      ∃ evs, syncGroups.pages w fuel i m s =
          some ⟨.ok ((full ++ [last]).foldl (fun m p => p.foldl mapInsert m) m), s1, evs⟩ ∧
        groupsListPages evs = List.range' i (full.length + 1) ∧
        ∀ e ∈ evs, ∃ j r, e = Event.http (.usergroupsList j 100) (.ok r) := by
  intro full
  induction full with
  | nil =>
    intro i s s1 m fuel _ hserve hfuel
    obtain ⟨resp, s2, hget, hcode, hres, hrest⟩ := hserve
    obtain ⟨fuel, rfl⟩ : ∃ k, fuel = k + 1 := ⟨fuel - 1, by simp at hfuel; omega⟩
    have hs : s2 = s1 := hrest
    subst hs
    subst hres
    refine ⟨[Event.http (.usergroupsList i 100) (Http.forget (.ok resp))], ?_, ?_, ?_⟩
    · simp [syncGroups.pages, hget, hcode, hlast]
    · simp [groupsListPages, List.range']
    · intro e he
      rw [List.mem_singleton] at he
      exact ⟨_, _, he⟩
  | cons a full ih =>
    intro i s s1 m fuel hfull hserve hfuel
    obtain ⟨resp, s2, hget, hcode, hres, hrest⟩ := hserve
    obtain ⟨fuel, rfl⟩ : ∃ k, fuel = k + 1 := ⟨fuel - 1, by simp at hfuel; omega⟩
    subst hres
    have ha : ¬ resp.result.length < 100 := by
      have := hfull resp.result (List.mem_cons_self _ _)
      omega
    obtain ⟨evs, hrun, hpages, hevs⟩ := ih (i + 1) s2 s1 (resp.result.foldl mapInsert m) fuel
      (fun p hp => hfull p (List.mem_cons_of_mem _ hp)) hrest (by simp at hfuel; omega)
    refine ⟨Event.http (.usergroupsList i 100) (Http.forget (.ok resp)) :: evs, ?_, ?_, ?_⟩
    · simp [syncGroups.pages, hget, hcode, ha, hrun, Run.after]
    · simp [groupsListPages, hpages, List.range']
    · intro e he
      rcases List.mem_cons.1 he with rfl | he
      · exact ⟨_, _, rfl⟩
      · exact hevs e he

theorem page_length (items : List String) (i : Nat) :
    (page items 100 i).length = min 100 (items.length - 100 * i) := by
  simp [page, List.length_take, List.length_drop]

theorem page_full (items : List String) (i : Nat) (h : i < items.length / 100) :
    (page items 100 i).length = 100 := by
  rw [page_length]
  have := Nat.div_add_mod items.length 100
  omega

theorem page_short (items : List String) : (page items 100 (items.length / 100)).length < 100 := by
  rw [page_length]
  have := Nat.div_add_mod items.length 100
  have := Nat.mod_lt items.length (by decide : 100 > 0)
  omega

theorem pagesOf_split (items : List String) :
    pagesOf items = (List.range (items.length / 100)).map (page items 100) ++
      [page items 100 (items.length / 100)] := by
  simp [pagesOf, List.range_succ]

theorem pagesOf_full (items : List String) :
    ∀ p ∈ (List.range (items.length / 100)).map (page items 100), 100 ≤ p.length := by
  intro p hp
  obtain ⟨i, hi, rfl⟩ := List.mem_map.1 hp
  rw [page_full items i (List.mem_range.1 hi)]

/-- C2, as amended. When the target system serves the `N` users (for the loop
of `syncUsers`) or groups (for the loop of `syncGroups`) in consecutive pages
of size 100, the page loop terminates with any fuel above `N / 100`, succeeds,
and requests exactly the pages `0, 1, ..., N / 100` in this order: `N / 100 + 1`
list requests, which is `⌈N / 100⌉` when `N` is not a multiple of 100 and
`⌈N / 100⌉ + 1` when it is (the empty final page is requested too).  Every page
before the last one requested has 100 items and the last one has fewer. -/
theorem page_loop_requests {σ : Type} (w : World σ) (items : List String) (s s1 : σ)
    (m : List String) (fuel : Nat) (hfuel : items.length / 100 < fuel) :
    (ServesUsers w 0 s (pagesOf items) s1 →
      ∃ run, syncUsers.pages w fuel 0 m s = some run ∧ (∃ m1, run.ret = .ok m1) ∧
        run.state = s1 ∧
        usersListPages run.events = List.range (items.length / 100 + 1) ∧
        (usersListPages run.events).length =
          (items.length + 99) / 100 + (if items.length % 100 = 0 then 1 else 0)) ∧
    (ServesGroups w 0 s (pagesOf items) s1 →
      ∃ run, syncGroups.pages w fuel 0 m s = some run ∧ (∃ m1, run.ret = .ok m1) ∧
        run.state = s1 ∧
        groupsListPages run.events = List.range (items.length / 100 + 1) ∧
        (groupsListPages run.events).length =
          (items.length + 99) / 100 + (if items.length % 100 = 0 then 1 else 0)) ∧
    (∀ i < items.length / 100, (page items 100 i).length = 100) ∧
    (page items 100 (items.length / 100)).length < 100 := by
  have hcount : items.length / 100 + 1 =
      (items.length + 99) / 100 + (if items.length % 100 = 0 then 1 else 0) := by
    split_ifs <;> omega
  refine ⟨fun hserve => ?_, fun hserve => ?_, fun i hi => page_full items i hi, page_short items⟩
  · rw [pagesOf_split] at hserve
    obtain ⟨evs, hrun, hpages, -⟩ := syncUsers_pages_spec w _ (page_short items) _ 0 s s1 m fuel
      (pagesOf_full items) hserve (by simpa using hfuel)
    refine ⟨_, hrun, ⟨_, rfl⟩, rfl, ?_, ?_⟩
    · simpa [List.range_eq_range'] using hpages
    · simp only [hpages, List.length_range', List.length_map, List.length_range]
      exact hcount
  · rw [pagesOf_split] at hserve
    obtain ⟨evs, hrun, hpages, -⟩ := syncGroups_pages_spec w _ (page_short items) _ 0 s s1 m fuel
      (pagesOf_full items) hserve (by simpa using hfuel)
    refine ⟨_, hrun, ⟨_, rfl⟩, rfl, ?_, ?_⟩
    · simpa [List.range_eq_range'] using hpages
    · simp only [hpages, List.length_range', List.length_map, List.length_range]
      exact hcount

theorem simWorld_serves_users (cf : SimSetup) (st : SimState) (n : Nat) :
    ∀ i, ServesUsers (simWorld cf) i st ((List.range' i n).map (page st.users 100)) st := by
  induction n with
  | zero => intro i; rfl
  | succ n ih => intro i; exact ⟨_, _, rfl, rfl, rfl, ih (i + 1)⟩

theorem simWorld_serves_groups (cf : SimSetup) (st : SimState) (n : Nat) :
    ∀ i, ServesGroups (simWorld cf) i st ((List.range' i n).map (page st.groups 100)) st := by
  induction n with
  | zero => intro i; rfl
  | succ n ih => intro i; exact ⟨_, _, rfl, rfl, rfl, ih (i + 1)⟩

theorem simWorld_pagesOf_users (cf : SimSetup) (st : SimState) :
    ServesUsers (simWorld cf) 0 st (pagesOf st.users) st := by
  have h := simWorld_serves_users cf st (st.users.length / 100 + 1) 0
  rwa [← List.range_eq_range'] at h

theorem simWorld_pagesOf_groups (cf : SimSetup) (st : SimState) :
    ServesGroups (simWorld cf) 0 st (pagesOf st.groups) st := by
  have h := simWorld_serves_groups cf st (st.groups.length / 100 + 1) 0
  rwa [← List.range_eq_range'] at h

/-- A run of C2 on a target system with exactly 100 users. -/
theorem page_loop_requests_witness :
    ∃ run, syncUsers.pages (usersWorld []) 2 0 [] ⟨List.replicate 100 "u", []⟩ = some run ∧
      (∃ m1, run.ret = .ok m1) ∧ run.state = ⟨List.replicate 100 "u", []⟩ ∧
      usersListPages run.events = List.range ((List.replicate 100 "u").length / 100 + 1) ∧
      (usersListPages run.events).length = ((List.replicate 100 "u").length + 99) / 100 +
        (if (List.replicate 100 "u").length % 100 = 0 then 1 else 0) :=
  (page_loop_requests (usersWorld []) (List.replicate 100 "u") ⟨List.replicate 100 "u", []⟩
    ⟨List.replicate 100 "u", []⟩ [] 2 (by decide)).1
    (simWorld_pagesOf_users _ ⟨List.replicate 100 "u", []⟩)

/-- C2 fails as stated when `N` is a multiple of 100: with 100 users the loop
of `syncUsers` performs 2 list requests and `⌈100 / 100⌉` is 1; with no group
at all the loop of `syncGroups` performs 1 list request and `⌈0 / 100⌉` is 0. -/
theorem page_loop_requests_counterexample :
    ((syncUsers.pages (usersWorld []) 2 0 [] ⟨List.replicate 100 "u", []⟩).map
      fun run => usersListPages run.events) = some [0, 1] ∧
    (100 + 99) / 100 = 1 ∧
    ((syncGroups.pages (usersWorld []) 1 0 [] ⟨[], []⟩).map
      fun run => groupsListPages run.events) = some [0] ∧
    (0 + 99) / 100 = 0 := by
  refine ⟨?_, by decide, by decide, by decide⟩
  decide

/-! ## `syncUsers` -/

theorem importRequests_append (a b : List Event) :
    importRequests (a ++ b) = importRequests a ++ importRequests b := by
  induction a with
  | nil => rfl
  | cons e a ih =>
    cases e with
    | http req out => cases req <;> simp [importRequests, ih]
    | _ => simp [importRequests, ih]

theorem importRequests_usersList (evs : List Event)
    (h : ∀ e ∈ evs, ∃ j r, e = Event.http (.usersList j 100) (.ok r)) :
    importRequests evs = [] := by
  induction evs with
  | nil => rfl
  | cons e evs ih =>
    obtain ⟨j, r, rfl⟩ := h e (List.mem_cons_self _ _)
    simp only [importRequests]
    exact ih fun e he => h e (List.mem_cons_of_mem _ he)

theorem mem_remaining (search : List String) (pages : List (List String)) (x : String) :
    x ∈ remaining search pages ↔ x ∈ search ∧ ∀ p ∈ pages, x ∉ p := by
  simp [remaining, mem_foldl_pages, mem_foldl_mapInsert]

theorem nodup_remaining (search : List String) (pages : List (List String)) :
    (remaining search pages).Nodup :=
  nodup_foldl_pages _ _ (nodup_foldl_mapInsert _ _ List.nodup_nil)

theorem syncUsers_run {σ : Type} (rt : GoRuntime) (w : World σ) (verbose : Bool) (s s0 s1 : σ)
    (r0 : Resp (List String)) (full : List (List String)) (last : List String) (fuel : Nat)
    (hsearch : w.getLdapUsersSearch s = (.ok r0, s0)) (h200 : r0.code = 200)
    (hserve : ServesUsers w 0 s0 (full ++ [last]) s1)
    (hfull : ∀ p ∈ full, 100 ≤ p.length) (hlast : last.length < 100)
    (hfuel : full.length < fuel) :
    ∃ run, syncUsers rt w verbose fuel s = some run ∧
      (remaining r0.result (full ++ [last]) = [] →
        run.ret = none ∧ run.state = s1 ∧ importRequests run.events = [] ∧
        Event.print .noNewLdapUsers ∈ run.events) ∧
      (remaining r0.result (full ++ [last]) ≠ [] →
        importRequests run.events = [rt.mapRange (remaining r0.result (full ++ [last]))] ∧
        run.state =
          (w.postLdapUsersImport (rt.mapRange (remaining r0.result (full ++ [last]))) s1).2) := by
  obtain ⟨evs, hrun, -, hevs⟩ := syncUsers_pages_spec w last hlast full 0 s0 s1
    (r0.result.foldl mapInsert []) fuel hfull hserve hfuel
  have himp := importRequests_usersList evs hevs
  have hout : ∀ (b : Bool), importRequests (if b then
      [Event.http .ldapUsersSearch (Http.forget (.ok r0)),
        .print (.ldapUserSearchReturned r0.result)]
      else [Event.http .ldapUsersSearch (Http.forget (.ok r0))]) = [] := by
    intro b; cases b <;> rfl
  have hrun1 : syncUsers.pages w fuel 0 (r0.result.foldl mapInsert []) s0 =
      some ⟨.ok (remaining r0.result (full ++ [last])), s1, evs⟩ := hrun
  generalize remaining r0.result (full ++ [last]) = M at hrun1 ⊢
  simp only [syncUsers, hsearch, h200, hrun1]
  by_cases hrem : M = []
  · subst hrem
    simp [importRequests_append, himp, hout, importRequests]
  · have hlen : ¬ M.length = 0 := by simpa using hrem
    rcases himport : w.postLdapUsersImport (rt.mapRange M) s1 with ⟨out, s3⟩
    cases out with
    | error err => simp [hlen, hrem, importRequests_append, himp, hout, importRequests]
    | ok r3 =>
      by_cases h3 : r3.code = 200 <;>
        simp [hlen, hrem, h3, importRequests_append, himp, hout, importRequests]

theorem toFinset_remaining (search : List String) (pages : List (List String)) :
    (remaining search pages).toFinset = search.toFinset \ pages.flatten.toFinset := by
  ext x
  simp only [List.mem_toFinset, Finset.mem_sdiff, mem_remaining, List.mem_flatten]
  constructor
  · rintro ⟨h1, h2⟩
    exact ⟨h1, fun ⟨p, hp, hx⟩ => h2 p hp hx⟩
  · rintro ⟨h1, h2⟩
    exact ⟨h1, fun p hp hx => h2 ⟨p, hp, hx⟩⟩

/-- C1. In `syncUsers`, when the LDAP-user search answers 200 with the list `D`
and the user-list requests answer 200 with the pages `full ++ [last]` (every
page before the last has at least 100 entries, the last has fewer, so these are
the pages the loop fetches), a run with enough fuel returns, and there is a
list `l` without repetition whose set of elements is `D \ T`, `T` being the
set of the usernames of all pages, such that the import requests of the run
are: none when `l` is empty, exactly one with `ldap_uid_list = l` otherwise.
The set of submitted names is thus a function of the sets `D` and `T` alone. -/
theorem syncUsers_import_set {σ : Type} (rt : GoRuntime) (w : World σ) (verbose : Bool)
    (s s0 s1 : σ) (r0 : Resp (List String)) (full : List (List String)) (last : List String)
    (fuel : Nat) (hsearch : w.getLdapUsersSearch s = (.ok r0, s0)) (h200 : r0.code = 200)
    (hserve : ServesUsers w 0 s0 (full ++ [last]) s1)
    (hfull : ∀ p ∈ full, 100 ≤ p.length) (hlast : last.length < 100)
    (hfuel : full.length < fuel) :
    ∃ run l, syncUsers rt w verbose fuel s = some run ∧ l.Nodup ∧
      l.toFinset = r0.result.toFinset \ (full ++ [last]).flatten.toFinset ∧
      importRequests run.events = if l = [] then [] else [l] := by
  obtain ⟨run, hrun, hempty, hsome⟩ := syncUsers_run rt w verbose s s0 s1 r0 full last fuel
    hsearch h200 hserve hfull hlast hfuel
  have hperm := rt.mapRange_perm (remaining r0.result (full ++ [last]))
  refine ⟨run, rt.mapRange (remaining r0.result (full ++ [last])), hrun,
    hperm.nodup_iff.2 (nodup_remaining _ _), ?_, ?_⟩
  · rw [List.toFinset_eq_of_perm _ _ hperm, toFinset_remaining]
  · by_cases hrem : remaining r0.result (full ++ [last]) = []
    · have hnil : rt.mapRange (remaining r0.result (full ++ [last])) = [] := by
        rw [hrem] at hperm
        rw [hrem]
        exact hperm.eq_nil
      rw [if_pos hnil]
      exact (hempty hrem).2.2.1
    · have hne : rt.mapRange (remaining r0.result (full ++ [last])) ≠ [] := fun h =>
        hrem (by rw [h] at hperm; exact hperm.symm.eq_nil)
      rw [if_neg hne]
      exact (hsome hrem).1

theorem aliceAndOthers_serves :
    ServesUsers (usersWorld ["alice", "bob"]) 0 ⟨aliceAndOthers, []⟩
      ([aliceAndOthers] ++ [[]]) ⟨aliceAndOthers, []⟩ :=
  ⟨_, _, rfl, rfl, rfl, _, _, rfl, rfl, rfl, rfl⟩

/-- A run of C1 on the scenario of the specification: the directory knows alice
and bob, page 0 of the target system holds 100 users, alice among them, and
page 1 is empty. -/
theorem syncUsers_import_set_witness :
    ∃ run l, syncUsers sampleRuntime (usersWorld ["alice", "bob"]) false 2
        ⟨aliceAndOthers, []⟩ = some run ∧ l.Nodup ∧
      l.toFinset = (ok200 ["alice", "bob"]).result.toFinset \
        ([aliceAndOthers] ++ [[]]).flatten.toFinset ∧
      importRequests run.events = if l = [] then [] else [l] :=
  syncUsers_import_set sampleRuntime (usersWorld ["alice", "bob"]) false ⟨aliceAndOthers, []⟩
    ⟨aliceAndOthers, []⟩ ⟨aliceAndOthers, []⟩ (ok200 ["alice", "bob"]) [aliceAndOthers] [] 2
    rfl rfl aliceAndOthers_serves (by decide) (by decide) (by decide)

/-- The scenario of the specification evaluated: exactly one import request,
with `ldap_uid_list = ["bob"]`. -/
theorem syncUsers_scenario :
    ((syncUsers sampleRuntime (usersWorld ["alice", "bob"]) false 2 ⟨aliceAndOthers, []⟩).map
      fun run => (importRequests run.events, usersListPages run.events, run.ret)) =
      some ([["bob"]], [0, 1], none) := by
  decide

theorem mem_pagesOf (items : List String) (x : String) :
    (∃ p ∈ pagesOf items, x ∈ p) ↔ x ∈ items := by
  constructor
  · rintro ⟨p, hp, hx⟩
    obtain ⟨i, -, rfl⟩ := List.mem_map.1 hp
    exact List.mem_of_mem_drop (List.mem_of_mem_take hx)
  · intro hx
    obtain ⟨k, hk, rfl⟩ := List.getElem_of_mem hx
    refine ⟨page items 100 (k / 100), List.mem_map.2 ⟨k / 100, List.mem_range.2 ?_, rfl⟩, ?_⟩
    · have := Nat.div_le_div_right (c := 100) (Nat.le_of_lt hk)
      omega
    · have hmod := Nat.div_add_mod k 100
      have hlt := Nat.mod_lt k (by decide : 100 > 0)
      have hlen : k % 100 < (page items 100 (k / 100)).length := by
        rw [page_length]
        omega
      have : (page items 100 (k / 100))[k % 100] = items[k] := by
        simp only [page, List.getElem_take, List.getElem_drop]
        congr 1
      rw [← this]
      exact List.getElem_mem _

theorem remaining_eq_nil (search : List String) (pages : List (List String))
    (h : ∀ u ∈ search, ∃ p ∈ pages, u ∈ p) : remaining search pages = [] := by
  apply List.eq_nil_iff_forall_not_mem.2
  intro x hx
  obtain ⟨hs, hp⟩ := (mem_remaining search pages x).1 hx
  obtain ⟨p, hp1, hp2⟩ := h x hs
  exact hp p hp1 hp2

theorem length_remaining_le (search : List String) (pages : List (List String)) :
    (remaining search pages).length ≤ search.length :=
  (List.subperm_of_subset (nodup_remaining search pages)
    (fun x hx => ((mem_remaining search pages x).1 hx).1)).length_le

theorem simWorld_syncUsers (rt : GoRuntime) (cf : SimSetup) (verbose : Bool) (st : SimState)
    (fuel : Nat) (hfuel : st.users.length / 100 < fuel) :
    ∃ run, syncUsers rt (simWorld cf) verbose fuel st = some run ∧
      (remaining cf.ldapUsers (pagesOf st.users) = [] →
        run.ret = none ∧ run.state = st ∧ importRequests run.events = [] ∧
        Event.print .noNewLdapUsers ∈ run.events) ∧
      (remaining cf.ldapUsers (pagesOf st.users) ≠ [] →
        importRequests run.events = [rt.mapRange (remaining cf.ldapUsers (pagesOf st.users))] ∧
        run.state = { st with
          users := (st.users ++ rt.mapRange (remaining cf.ldapUsers (pagesOf st.users))) }) := by
  have hserve := simWorld_pagesOf_users cf st
  rw [pagesOf_split] at hserve ⊢
  exact syncUsers_run rt (simWorld cf) verbose st st st (ok200 cf.ldapUsers) _ _ fuel rfl rfl
    hserve (pagesOf_full st.users) (page_short st.users) (by simpa using hfuel)

/-- C8. First, in `syncUsers`: when the LDAP-user search answers 200 with the
list `D`, the user-list requests answer 200 with the pages the loop fetches and
every name of `D` occurs in one of these pages (`D \ T` is empty), a run with
enough fuel returns success (nil), issues no import request and prints "no new
LDAP users".  Second, against a target system that serves its users in pages of
100 and adds to them exactly what an import request submits: a first run leaves
the users `T ++ l` with `l` of set `D \ T`, and a second run returns success,
issues no import request, prints "no new LDAP users" and leaves the state of
the target system unchanged. -/
theorem syncUsers_idempotent {σ : Type} (rt : GoRuntime) (w : World σ) (verbose : Bool)
    (s s0 s1 : σ) (r0 : Resp (List String)) (full : List (List String)) (last : List String)
    (fuel : Nat) (hsearch : w.getLdapUsersSearch s = (.ok r0, s0)) (h200 : r0.code = 200)
    (hserve : ServesUsers w 0 s0 (full ++ [last]) s1)
    (hfull : ∀ p ∈ full, 100 ≤ p.length) (hlast : last.length < 100)
    (hfuel : full.length < fuel)
    (hsub : r0.result.toFinset \ (full ++ [last]).flatten.toFinset = ∅) :
    (∃ run, syncUsers rt w verbose fuel s = some run ∧ run.ret = none ∧ run.state = s1 ∧
      importRequests run.events = [] ∧ Event.print .noNewLdapUsers ∈ run.events) ∧
    (∀ (cf : SimSetup) (st : SimState) (fuel2 : Nat),
      (st.users.length + cf.ldapUsers.length) / 100 < fuel2 →
      ∃ run1 run2 l, syncUsers rt (simWorld cf) verbose fuel2 st = some run1 ∧
        l.toFinset = cf.ldapUsers.toFinset \ st.users.toFinset ∧
        run1.state = { st with users := st.users ++ l } ∧
        syncUsers rt (simWorld cf) verbose fuel2 run1.state = some run2 ∧
        run2.ret = none ∧ importRequests run2.events = [] ∧
        Event.print .noNewLdapUsers ∈ run2.events ∧ run2.state = run1.state) := by
  constructor
  · obtain ⟨run, hrun, hempty, -⟩ := syncUsers_run rt w verbose s s0 s1 r0 full last fuel
      hsearch h200 hserve hfull hlast hfuel
    have hrem : remaining r0.result (full ++ [last]) = [] := by
      rw [← List.toFinset_eq_empty_iff, toFinset_remaining]
      exact hsub
    exact ⟨run, hrun, hempty hrem⟩
  · intro cf st fuel2 hfuel2
    have hle : st.users.length / 100 ≤ (st.users.length + cf.ldapUsers.length) / 100 :=
      Nat.div_le_div_right (Nat.le_add_right _ _)
    obtain ⟨run1, hrun1, hempty1, hsome1⟩ := simWorld_syncUsers rt cf verbose st fuel2
      (by omega)
    have hperm := rt.mapRange_perm (remaining cf.ldapUsers (pagesOf st.users))
    have hstate : run1.state = { st with
        users := (st.users ++ rt.mapRange (remaining cf.ldapUsers (pagesOf st.users))) } := by
      by_cases hrem : remaining cf.ldapUsers (pagesOf st.users) = []
      · have hnil : rt.mapRange (remaining cf.ldapUsers (pagesOf st.users)) = [] := by
          rw [hrem] at hperm
          rw [hrem]
          exact hperm.eq_nil
        rw [(hempty1 hrem).2.1, hnil]
        simp
      · exact (hsome1 hrem).2
    have hset : (rt.mapRange (remaining cf.ldapUsers (pagesOf st.users))).toFinset =
        cf.ldapUsers.toFinset \ st.users.toFinset := by
      rw [List.toFinset_eq_of_perm _ _ hperm]
      ext x
      simp only [List.mem_toFinset, Finset.mem_sdiff, mem_remaining]
      constructor
      · rintro ⟨h1, h2⟩
        exact ⟨h1, fun hx => by
          obtain ⟨p, hp, hxp⟩ := (mem_pagesOf st.users x).2 hx
          exact h2 p hp hxp⟩
      · rintro ⟨h1, h2⟩
        exact ⟨h1, fun p hp hx => h2 ((mem_pagesOf st.users x).1 ⟨p, hp, hx⟩)⟩
    have hlen : run1.state.users.length ≤ st.users.length + cf.ldapUsers.length := by
      rw [hstate]
      simp only [List.length_append]
      have := length_remaining_le cf.ldapUsers (pagesOf st.users)
      rw [hperm.length_eq]
      omega
    obtain ⟨run2, hrun2, hempty2, -⟩ := simWorld_syncUsers rt cf verbose run1.state fuel2
      (by have := Nat.div_le_div_right (c := 100) hlen; omega)
    have hrem2 : remaining cf.ldapUsers (pagesOf run1.state.users) = [] := by
      apply remaining_eq_nil
      intro u hu
      apply (mem_pagesOf run1.state.users u).2
      rw [hstate]
      by_cases hin : u ∈ st.users
      · exact List.mem_append_left _ hin
      · apply List.mem_append_right
        rw [← List.mem_toFinset, hset]
        simp [hu, hin]
    obtain ⟨h1, h2, h3, h4⟩ := hempty2 hrem2
    exact ⟨run1, run2, _, hrun1, hset, hstate, hrun2, h1, h3, h4, h2⟩

/-- A run of C8: alice is already a user of the target system, so nothing is
imported; starting from a target system without bob, the second of two runs
imports nothing. -/
theorem syncUsers_idempotent_witness :
    (∃ run, syncUsers sampleRuntime (usersWorld ["alice"]) false 2 ⟨aliceAndOthers, []⟩ =
        some run ∧ run.ret = none ∧ run.state = ⟨aliceAndOthers, []⟩ ∧
      importRequests run.events = [] ∧ Event.print .noNewLdapUsers ∈ run.events) ∧
    ∃ run1 run2 l, syncUsers sampleRuntime (usersWorld ["alice", "bob"]) false 2
        ⟨aliceAndOthers, []⟩ = some run1 ∧
      l.toFinset = ["alice", "bob"].toFinset \ aliceAndOthers.toFinset ∧
      run1.state = { users := aliceAndOthers ++ l, groups := [] } ∧
      syncUsers sampleRuntime (usersWorld ["alice", "bob"]) false 2 run1.state = some run2 ∧
      run2.ret = none ∧ importRequests run2.events = [] ∧
      Event.print .noNewLdapUsers ∈ run2.events ∧ run2.state = run1.state :=
  have h := syncUsers_idempotent sampleRuntime (usersWorld ["alice"]) false ⟨aliceAndOthers, []⟩
    ⟨aliceAndOthers, []⟩ ⟨aliceAndOthers, []⟩ (ok200 ["alice"]) [aliceAndOthers] [] 2
    rfl rfl ⟨_, _, rfl, rfl, rfl, _, _, rfl, rfl, rfl, rfl⟩ (by decide) (by decide) (by decide)
    (by
      rw [Finset.sdiff_eq_empty_iff_subset]
      intro x hx
      have hx1 : x = "alice" := by simpa [ok200] using hx
      subst hx1
      simp [aliceAndOthers])
  ⟨h.1, h.2 (usersSetup ["alice", "bob"]) ⟨aliceAndOthers, []⟩ 2 (by decide)⟩

/-- The two runs of the scenario evaluated: the first imports bob, the second
imports nothing and leaves the users unchanged. -/
theorem syncUsers_twice :
    ((syncUsers sampleRuntime (usersWorld ["alice", "bob"]) false 2 ⟨aliceAndOthers, []⟩).bind
      fun run1 =>
        (syncUsers sampleRuntime (usersWorld ["alice", "bob"]) false 2 run1.state).map
          fun run2 => (importRequests run1.events, importRequests run2.events, run2.ret,
            decide (run2.state = run1.state))) =
      some ([["bob"]], [], none, true) := by
  decide

/-! ## `syncGroups` -/

theorem createCalls_append (a b : List Event) :
    createCalls (a ++ b) = createCalls a ++ createCalls b := by
  induction a with
  | nil => rfl
  | cons e a ih =>
    cases e with
    | http req out => cases req <;> simp [createCalls, ih]
    | _ => simp [createCalls, ih]

theorem syncGroups_insert_cases {σ : Type} (w : World σ) (verbose : Bool) (cfg : ldapConfig)
    (existingGroups : List String) :
    ∀ (entries : List Entry) (didInsert : Bool) (s : σ),
      ((∃ b, (syncGroups.insert w verbose cfg existingGroups entries didInsert s).ret = .ok b) ∧
        (createCalls (syncGroups.insert w verbose cfg existingGroups entries didInsert s).events).map
          Prod.fst = (missing existingGroups entries).map (syncGroups.body cfg) ∧
        ∀ c ∈ createCalls (syncGroups.insert w verbose cfg existingGroups entries didInsert s).events,
          Accepted c.2) ∨
      ∃ pre e post calls out,
        missing existingGroups entries = pre ++ e :: post ∧
        createCalls (syncGroups.insert w verbose cfg existingGroups entries didInsert s).events =
          calls ++ [(syncGroups.body cfg e, out)] ∧
        calls.map Prod.fst = pre.map (syncGroups.body cfg) ∧
        (∀ c ∈ calls, Accepted c.2) ∧ ¬ Accepted out ∧
        (∀ resp, out = .ok resp →
          (syncGroups.insert w verbose cfg existingGroups entries didInsert s).ret =
            .error ("insert request returned " ++ resp.status ++ " " ++ resp.raw)) ∧
        (∀ err, out = .error err →
          (syncGroups.insert w verbose cfg existingGroups entries didInsert s).ret =
            .error ("insert request failed: " ++ err)) := by
  intro entries
  induction entries with
  | nil =>
    intro didInsert s
    left
    simp [syncGroups.insert, createCalls, missing]
  | cons e rest ih =>
    intro didInsert s
    by_cases hmem : e.DN ∈ existingGroups
    · have hmiss : missing existingGroups (e :: rest) = missing existingGroups rest := by
        simp [missing, hmem]
      have hev : ∀ (r : Run σ (Except String Bool)),
          createCalls (Run.afterAll (if verbose = true then [Event.print (.alreadyExists e.DN)]
            else []) r).events = createCalls r.events := by
        intro r
        cases verbose <;> simp [Run.afterAll, createCalls]
      have hret : ∀ (r : Run σ (Except String Bool)),
          (Run.afterAll (if verbose = true then [Event.print (.alreadyExists e.DN)]
            else []) r).ret = r.ret := fun r => rfl
      simp only [syncGroups.insert, hmem, if_true, hmiss, hev, hret]
      exact ih didInsert s
    · have hmiss : missing existingGroups (e :: rest) = e :: missing existingGroups rest := by
        simp [missing, hmem]
      rcases hpost : w.postUsergroups (syncGroups.body cfg e) s with ⟨out, s1⟩
      cases out with
      | error err =>
        right
        refine ⟨[], e, missing existingGroups rest, [], .error err, by simpa using hmiss, ?_, rfl,
          by simp, ?_, ?_, ?_⟩
        · simp [syncGroups.insert, hmem, hpost, createCalls]
        · rintro ⟨resp, h, -⟩
          cases h
        · intro resp h
          cases h
        · intro err1 h
          cases h
          simp [syncGroups.insert, hmem, hpost]
      | ok resp =>
        by_cases hcode : resp.code ≠ 201 ∧ resp.code ≠ 409
        · right
          refine ⟨[], e, missing existingGroups rest, [], .ok resp, by simpa using hmiss, ?_, rfl,
            by simp, ?_, ?_, ?_⟩
          · simp [syncGroups.insert, hmem, hpost, hcode, createCalls, Http.forget]
          · rintro ⟨resp1, h, h1⟩
            cases h
            rcases h1 with h1 | h1
            · exact hcode.1 h1
            · exact hcode.2 h1
          · intro resp1 h
            cases h
            simp [syncGroups.insert, hmem, hpost, hcode]
          · intro err1 h
            cases h
        · have hacc : Accepted (.ok resp) := ⟨resp, rfl, by
            by_cases h1 : resp.code = 201
            · exact Or.inl h1
            · exact Or.inr (by_contra fun h2 => hcode ⟨h1, h2⟩)⟩
          have hrun : syncGroups.insert w verbose cfg existingGroups (e :: rest) didInsert s =
              Run.afterAll [Event.http (.usergroupsCreate (syncGroups.body cfg e)) (.ok resp),
                .print (if resp.code = 201 then Print.created e.DN
                  else Print.existsNotFilteredOut e.DN)]
                (syncGroups.insert w verbose cfg existingGroups rest true s1) := by
            simp [syncGroups.insert, hmem, hpost, hcode, Http.forget]
          have hev : createCalls (syncGroups.insert w verbose cfg existingGroups (e :: rest)
              didInsert s).events = (syncGroups.body cfg e, .ok resp) ::
                createCalls (syncGroups.insert w verbose cfg existingGroups rest true s1).events := by
            rw [hrun]
            simp [Run.afterAll, createCalls]
          have hret : (syncGroups.insert w verbose cfg existingGroups (e :: rest) didInsert s).ret =
              (syncGroups.insert w verbose cfg existingGroups rest true s1).ret := by
            rw [hrun]
            rfl
          rw [hev, hret, hmiss]
          rcases ih true s1 with ⟨hok, hreq, hall⟩ | ⟨pre, e1, post, calls, out, h1, h2, h3, h4, h5, h6, h7⟩
          · left
            refine ⟨hok, by simp [hreq], ?_⟩
            intro c hc
            rcases List.mem_cons.1 hc with rfl | hc
            · exact hacc
            · exact hall c hc
          · right
            refine ⟨e :: pre, e1, post, (syncGroups.body cfg e, .ok resp) :: calls, out,
              by simp [h1], by simp [h2], by simp [h3], ?_, h5, h6, h7⟩
            intro c hc
            rcases List.mem_cons.1 hc with rfl | hc
            · exact hacc
            · exact h4 c hc

theorem createCalls_groupPages {σ : Type} (w : World σ) :
    ∀ (fuel i : Nat) (m : List String) (s : σ) (r : Run σ (Except String (List String))),
      syncGroups.pages w fuel i m s = some r → createCalls r.events = [] := by
  intro fuel
  induction fuel with
  | zero => intro i m s r h; simp [syncGroups.pages] at h
  | succ fuel ih =>
    intro i m s r h
    unfold syncGroups.pages at h
    rcases hget : w.getUsergroups i 100 s with ⟨out, s1⟩
    rw [hget] at h
    cases out with
    | error err =>
      simp only [Option.some.injEq] at h
      subst h
      rfl
    | ok resp =>
      simp only at h
      split_ifs at h with h1 h2
      · simp only [Option.some.injEq] at h
        subst h
        rfl
      · simp only [Option.some.injEq] at h
        subst h
        rfl
      · obtain ⟨r1, hr1, rfl⟩ := Option.map_eq_some'.1 h
        simp only [Run.after, createCalls]
        exact ih _ _ _ _ hr1

theorem createCalls_getLdapConfig {σ : Type} (rt : GoRuntime) (w : World σ) (verbose : Bool)
    (s : σ) : createCalls (getLdapConfig rt w verbose s).events = [] := by
  unfold getLdapConfig
  rcases w.getConfigurations s with ⟨out, s1⟩
  cases out with
  | error err => rfl
  | ok resp =>
    simp only
    split_ifs <;> rfl

theorem createCalls_connect {σ : Type} (w : World σ) (ldapPass : String) (cfg : ldapConfig)
    (s : σ) : createCalls (syncGroups.connect w ldapPass cfg s).events = [] := by
  unfold syncGroups.connect
  rcases w.dialURL cfg.url (!cfg.verifyCert) s with ⟨err, s1⟩
  cases err with
  | some err => rfl
  | none =>
    simp only
    split_ifs
    · rcases w.bind cfg.searchDN ldapPass s1 with ⟨err2, s2⟩
      cases err2 with
      | some err2 => rfl
      | none =>
        simp only
        rcases w.search (syncGroups.searchRequest cfg) s2 with ⟨out, s3⟩
        cases out <;> rfl
    · simp only
      rcases w.search (syncGroups.searchRequest cfg) s1 with ⟨out, s3⟩
      cases out <;> rfl

theorem createCalls_collect {σ : Type} (rt : GoRuntime) (w : World σ) (ldapPass : String)
    (verbose : Bool) (fuel : Nat) (s : σ)
    (r : Run σ (Except String (ldapConfig × List String × List Entry)))
    (h : syncGroups.collect rt w ldapPass verbose fuel s = some r) :
    createCalls r.events = [] := by
  unfold syncGroups.collect at h
  have h0 := createCalls_getLdapConfig rt w verbose s
  rcases hcfg : getLdapConfig rt w verbose s with ⟨ret, s1, evs1⟩
  rw [hcfg] at h h0
  simp only at h0
  cases ret with
  | error err =>
    simp only [Option.some.injEq] at h
    subst h
    exact h0
  | ok cfg =>
    simp only at h
    have hout : createCalls (evs1 ++ if verbose = true then [Event.print (.ldapConfigIs cfg)]
        else []) = [] := by
      rw [createCalls_append, h0]
      cases verbose <;> rfl
    rcases hpages : syncGroups.pages w fuel 0 [] s1 with _ | ⟨ret2, s2, evs2⟩
    · rw [hpages] at h
      cases h
    · have h2 := createCalls_groupPages w fuel 0 [] s1 _ hpages
      rw [hpages] at h
      simp only at h2
      cases ret2 with
      | error err =>
        simp only [Option.some.injEq] at h
        subst h
        simp only [createCalls_append, hout, h2, List.append_nil]
      | ok existingGroups =>
        simp only at h
        have h3 := createCalls_connect w ldapPass cfg s2
        rcases hconn : syncGroups.connect w ldapPass cfg s2 with ⟨ret3, s3, evs3⟩
        rw [hconn] at h h3
        simp only at h3
        cases ret3 with
        | error err =>
          simp only [Option.some.injEq] at h
          subst h
          simp only [createCalls_append, hout, h2, h3, List.append_nil]
        | ok entries =>
          simp only [Option.some.injEq] at h
          subst h
          simp only [createCalls_append, hout, h2, h3, List.append_nil]

theorem syncGroups_of_collect {σ : Type} (rt : GoRuntime) (w : World σ) (ldapPass : String)
    (verbose : Bool) (fuel : Nat) (s s1 : σ) (cfg : ldapConfig) (existingGroups : List String)
    (entries : List Entry) (evs1 : List Event)
    (hcollect : syncGroups.collect rt w ldapPass verbose fuel s =
      some ⟨.ok (cfg, existingGroups, entries), s1, evs1⟩) :
    ∃ run, syncGroups rt w ldapPass verbose fuel s = some run ∧
      createCalls run.events =
        createCalls (syncGroups.insert w verbose cfg existingGroups entries false s1).events ∧
      run.ret = match (syncGroups.insert w verbose cfg existingGroups entries false s1).ret with
        | .error err => some err
        | .ok _ => none := by
  have h1 := createCalls_collect rt w ldapPass verbose fuel s _ hcollect
  simp only at h1
  unfold syncGroups
  rw [hcollect]
  simp only
  rcases hins : syncGroups.insert w verbose cfg existingGroups entries false s1 with ⟨ret, s2, evs2⟩
  cases ret with
  | error err => exact ⟨_, rfl, by simp [createCalls_append, h1], rfl⟩
  | ok didInsert =>
    refine ⟨_, rfl, ?_, rfl⟩
    cases didInsert <;> simp [createCalls_append, h1, createCalls]

/-- C6. In `syncGroups`, when everything before the loop over the search result
succeeds, with configuration `cfg`, existing group DNs `existingGroups` and
search entries `entries`, the run returns; and if every create-group request of
the run is answered with status 201 or 409, `syncGroups` returns nil and the
create-group requests are exactly the records of the entries whose DN is not
in `existingGroups`, in search-result order, one per such entry.  A 409 answer
therefore never stops the requests for the entries after it. -/
theorem syncGroups_conflict_tolerance {σ : Type} (rt : GoRuntime) (w : World σ)
    (ldapPass : String) (verbose : Bool) (fuel : Nat) (s s1 : σ) (cfg : ldapConfig)
    (existingGroups : List String) (entries : List Entry) (evs1 : List Event)
    (hcollect : syncGroups.collect rt w ldapPass verbose fuel s =
      some ⟨.ok (cfg, existingGroups, entries), s1, evs1⟩) :
    ∃ run, syncGroups rt w ldapPass verbose fuel s = some run ∧
      ((∀ c ∈ createCalls run.events, Accepted c.2) →
        run.ret = none ∧
        createRequests run.events =
          (missing existingGroups entries).map (syncGroups.body cfg)) := by
  obtain ⟨run, hrun, hcalls, hret⟩ := syncGroups_of_collect rt w ldapPass verbose fuel s s1 cfg
    existingGroups entries evs1 hcollect
  refine ⟨run, hrun, fun hacc => ?_⟩
  rw [hcalls] at hacc
  unfold createRequests
  rw [hcalls, hret]
  rcases syncGroups_insert_cases w verbose cfg existingGroups entries false s1 with
    ⟨⟨b, hok⟩, hreq, -⟩ | ⟨pre, e, post, calls, out, -, h2, -, -, h5, -⟩
  · rw [hok]
    exact ⟨rfl, hreq⟩
  · exact absurd (hacc (syncGroups.body cfg e, out) (by rw [h2]; simp)) h5

/-- C7. In `syncGroups`, when everything before the loop over the search result
succeeds, the run returns; and if a create-group request of the run is
answered with a status other than 201 and 409, `syncGroups` returns the error
"insert request returned <status> <body>" of that response, the request is the
one for an entry `e` whose DN is not in `existingGroups`, and the create-group
requests of the run are exactly those of the entries not in `existingGroups`
up to and including `e`, in order: the earlier ones were all answered 201 or
409 and none is issued for a later entry. -/
theorem syncGroups_hard_failure {σ : Type} (rt : GoRuntime) (w : World σ)
    (ldapPass : String) (verbose : Bool) (fuel : Nat) (s s1 : σ) (cfg : ldapConfig)
    (existingGroups : List String) (entries : List Entry) (evs1 : List Event)
    (hcollect : syncGroups.collect rt w ldapPass verbose fuel s =
      some ⟨.ok (cfg, existingGroups, entries), s1, evs1⟩) :
    ∃ run, syncGroups rt w ldapPass verbose fuel s = some run ∧
      ∀ g resp, (g, Except.ok resp) ∈ createCalls run.events →
        resp.code ≠ 201 → resp.code ≠ 409 →
        run.ret = some ("insert request returned " ++ resp.status ++ " " ++ resp.raw) ∧
        ∃ pre e post, missing existingGroups entries = pre ++ e :: post ∧
          g = syncGroups.body cfg e ∧
          createRequests run.events = (pre ++ [e]).map (syncGroups.body cfg) ∧
          ∀ c ∈ (createCalls run.events).dropLast, Accepted c.2 := by
  obtain ⟨run, hrun, hcalls, hret⟩ := syncGroups_of_collect rt w ldapPass verbose fuel s s1 cfg
    existingGroups entries evs1 hcollect
  refine ⟨run, hrun, fun g resp hmem h201 h409 => ?_⟩
  have hbad : ¬ Accepted (Except.ok resp) := by
    rintro ⟨resp1, h, h1⟩
    cases h
    rcases h1 with h1 | h1
    · exact h201 h1
    · exact h409 h1
  unfold createRequests
  rw [hcalls] at hmem ⊢
  rw [hret]
  rcases syncGroups_insert_cases w verbose cfg existingGroups entries false s1 with
    ⟨-, -, hall⟩ | ⟨pre, e, post, calls, out, h1, h2, h3, h4, -, h6, -⟩
  · exact absurd (hall _ hmem) hbad
  · rw [h2] at hmem ⊢
    rcases List.mem_append.1 hmem with hin | hin
    · exact absurd (h4 _ hin) hbad
    · rw [List.mem_singleton] at hin
      obtain ⟨hg, hout⟩ := Prod.mk.inj hin
      rw [h6 resp hout.symm]
      refine ⟨rfl, pre, e, post, h1, hg, by simp [h3], ?_⟩
      simpa using h4

theorem sample_conflict_calls :
    (syncGroups sampleRuntime (simWorld (groupsSetup [])) "secret" false 1 ⟨[], ["cn=ops"]⟩).map
      (fun run => createCalls run.events) =
      some [(⟨"dev", "cn=dev", 1⟩, .ok ⟨201, "201 Created", "", ()⟩),
        (⟨"dev", "cn=dev", 1⟩, .ok ⟨409, "409 Conflict", "", ()⟩),
        (⟨"qa", "cn=qa", 1⟩, .ok ⟨201, "201 Created", "", ()⟩)] := by
  rfl

/-- A run of C6: the target system already has the group "cn=ops", and the
directory returns "cn=dev" twice, so that the second request for it is
answered 409; the request for "cn=qa" follows all the same. -/
theorem syncGroups_conflict_tolerance_witness :
    ∃ run, syncGroups sampleRuntime (simWorld (groupsSetup [])) "secret" false 1
        ⟨[], ["cn=ops"]⟩ = some run ∧ run.ret = none ∧
      createRequests run.events =
        (missing ["cn=ops"] sampleEntries).map (syncGroups.body sampleLdapConfig) := by
  obtain ⟨run, hrun, h⟩ := syncGroups_conflict_tolerance sampleRuntime
    (simWorld (groupsSetup [])) "secret" false 1 ⟨[], ["cn=ops"]⟩ _ sampleLdapConfig ["cn=ops"]
    sampleEntries _ rfl
  refine ⟨run, hrun, h ?_⟩
  have hcalls := sample_conflict_calls
  rw [hrun] at hcalls
  have hev : createCalls run.events = _ := Option.some.inj hcalls
  rw [hev]
  intro c hc
  simp only [List.mem_cons, List.mem_singleton, List.not_mem_nil, or_false] at hc
  rcases hc with rfl | rfl | rfl
  · exact ⟨_, rfl, Or.inl rfl⟩
  · exact ⟨_, rfl, Or.inr rfl⟩
  · exact ⟨_, rfl, Or.inl rfl⟩

theorem sample_failure_calls :
    (syncGroups sampleRuntime (simWorld (groupsSetup ["cn=ops"])) "secret" false 1 ⟨[], []⟩).map
      (fun run => createCalls run.events) =
      some [(⟨"dev", "cn=dev", 1⟩, .ok ⟨201, "201 Created", "", ()⟩),
        (⟨"ops", "cn=ops", 1⟩, .ok ⟨500, "500 Internal Server Error", "rejected", ()⟩)] := by
  rfl

/-- A run of C7: the target system has no group and refuses "cn=ops" with
status 500; "cn=dev" has been created before, nothing is requested after. -/
theorem syncGroups_hard_failure_witness :
    ∃ run, syncGroups sampleRuntime (simWorld (groupsSetup ["cn=ops"])) "secret" false 1
        ⟨[], []⟩ = some run ∧
      run.ret = some ("insert request returned " ++ "500 Internal Server Error" ++ " " ++
        "rejected") ∧
      ∃ pre e post, missing [] sampleEntries = pre ++ e :: post ∧
        (⟨"ops", "cn=ops", 1⟩ : GroupBody) = syncGroups.body sampleLdapConfig e ∧
        createRequests run.events = (pre ++ [e]).map (syncGroups.body sampleLdapConfig) ∧
        ∀ c ∈ (createCalls run.events).dropLast, Accepted c.2 := by
  obtain ⟨run, hrun, h⟩ := syncGroups_hard_failure sampleRuntime
    (simWorld (groupsSetup ["cn=ops"])) "secret" false 1 ⟨[], []⟩ _ sampleLdapConfig []
    sampleEntries _ rfl
  refine ⟨run, hrun, h ⟨"ops", "cn=ops", 1⟩ ⟨500, "500 Internal Server Error", "rejected", ()⟩
    ?_ (by decide) (by decide)⟩
  have hcalls := sample_failure_calls
  rw [hrun] at hcalls
  have hev : createCalls run.events = _ := Option.some.inj hcalls
  rw [hev]
  simp

/-- The two group runs evaluated: the results and the DNs of the create-group
requests. -/
theorem syncGroups_scenarios :
    ((syncGroups sampleRuntime (simWorld (groupsSetup [])) "secret" false 1
      ⟨[], ["cn=ops"]⟩).map fun run =>
        (run.ret, (createRequests run.events).map (·.ldap_group_dn), run.state.groups)) =
      some (none, ["cn=dev", "cn=dev", "cn=qa"], ["cn=ops", "cn=dev", "cn=qa"]) ∧
    ((syncGroups sampleRuntime (simWorld (groupsSetup ["cn=ops"])) "secret" false 1
      ⟨[], []⟩).map fun run =>
        (run.ret, (createRequests run.events).map (·.ldap_group_dn), run.state.groups)) =
      some (some "insert request returned 500 Internal Server Error rejected",
        ["cn=dev", "cn=ops"], ["cn=dev"]) := by
  decide

/-! ## The scope of the directory search -/

theorem searchCalls_append (a b : List Event) :
    searchCalls (a ++ b) = searchCalls a ++ searchCalls b := by
  induction a with
  | nil => rfl
  | cons e a ih => cases e <;> simp [searchCalls, ih]

theorem searchCalls_getLdapConfig {σ : Type} (rt : GoRuntime) (w : World σ) (verbose : Bool)
    (s : σ) : searchCalls (getLdapConfig rt w verbose s).events = [] := by
  unfold getLdapConfig
  rcases w.getConfigurations s with ⟨out, s1⟩
  cases out with
  | error err => rfl
  | ok resp =>
    simp only
    split_ifs <;> rfl

theorem searchCalls_groupPages {σ : Type} (w : World σ) :
    ∀ (fuel i : Nat) (m : List String) (s : σ) (r : Run σ (Except String (List String))),
      syncGroups.pages w fuel i m s = some r → searchCalls r.events = [] := by
  intro fuel
  induction fuel with
  | zero => intro i m s r h; simp [syncGroups.pages] at h
  | succ fuel ih =>
    intro i m s r h
    unfold syncGroups.pages at h
    rcases hget : w.getUsergroups i 100 s with ⟨out, s1⟩
    rw [hget] at h
    cases out with
    | error err =>
      simp only [Option.some.injEq] at h
      subst h
      rfl
    | ok resp =>
      simp only at h
      split_ifs at h with h1 h2
      · simp only [Option.some.injEq] at h
        subst h
        rfl
      · simp only [Option.some.injEq] at h
        subst h
        rfl
      · obtain ⟨r1, hr1, rfl⟩ := Option.map_eq_some'.1 h
        simp only [Run.after, searchCalls]
        exact ih _ _ _ _ hr1

theorem searchCalls_insert {σ : Type} (w : World σ) (verbose : Bool) (cfg : ldapConfig)
    (existingGroups : List String) :
    ∀ (entries : List Entry) (didInsert : Bool) (s : σ),
      searchCalls (syncGroups.insert w verbose cfg existingGroups entries didInsert s).events =
        [] := by
  intro entries
  induction entries with
  | nil => intro didInsert s; rfl
  | cons e rest ih =>
    intro didInsert s
    by_cases hmem : e.DN ∈ existingGroups
    · cases verbose <;> simp [syncGroups.insert, hmem, Run.afterAll, searchCalls, ih]
    · rcases hpost : w.postUsergroups (syncGroups.body cfg e) s with ⟨out, s1⟩
      cases out with
      | error err => simp [syncGroups.insert, hmem, hpost, searchCalls]
      | ok resp =>
        by_cases hcode : resp.code ≠ 201 ∧ resp.code ≠ 409
        · simp [syncGroups.insert, hmem, hpost, hcode, searchCalls]
        · simp [syncGroups.insert, hmem, hpost, hcode, Run.afterAll, searchCalls, ih]

theorem searchCalls_connect {σ : Type} (w : World σ) (ldapPass : String) (cfg : ldapConfig)
    (s : σ) :
    (∀ req ∈ searchCalls (syncGroups.connect w ldapPass cfg s).events,
      req = syncGroups.searchRequest cfg) ∧
    (∀ entries, (syncGroups.connect w ldapPass cfg s).ret = .ok entries →
      searchCalls (syncGroups.connect w ldapPass cfg s).events =
        [syncGroups.searchRequest cfg]) := by
  unfold syncGroups.connect
  rcases w.dialURL cfg.url (!cfg.verifyCert) s with ⟨err, s1⟩
  cases err with
  | some err => simp [searchCalls]
  | none =>
    simp only
    split_ifs
    · rcases w.bind cfg.searchDN ldapPass s1 with ⟨err2, s2⟩
      cases err2 with
      | some err2 => simp [searchCalls]
      | none =>
        simp only
        rcases w.search (syncGroups.searchRequest cfg) s2 with ⟨out, s3⟩
        cases out <;> simp [searchCalls]
    · simp only
      rcases w.search (syncGroups.searchRequest cfg) s1 with ⟨out, s3⟩
      cases out <;> simp [searchCalls]

theorem searchCalls_collect {σ : Type} (rt : GoRuntime) (w : World σ) (ldapPass : String)
    (verbose : Bool) (fuel : Nat) (s : σ)
    (r : Run σ (Except String (ldapConfig × List String × List Entry)))
    (h : syncGroups.collect rt w ldapPass verbose fuel s = some r) :
    (∀ req ∈ searchCalls r.events, ∃ cfg, (getLdapConfig rt w verbose s).ret = .ok cfg ∧
      req = syncGroups.searchRequest cfg) ∧
    (∀ cfg existingGroups entries, r.ret = .ok (cfg, existingGroups, entries) →
      (getLdapConfig rt w verbose s).ret = .ok cfg ∧
      searchCalls r.events = [syncGroups.searchRequest cfg]) := by
  unfold syncGroups.collect at h
  have h0 := searchCalls_getLdapConfig rt w verbose s
  rcases hcfg : getLdapConfig rt w verbose s with ⟨ret, s1, evs1⟩
  rw [hcfg] at h h0
  simp only at h0
  cases ret with
  | error err =>
    simp only [Option.some.injEq] at h
    subst h
    simp [h0]
  | ok cfg =>
    simp only at h
    have hout : searchCalls (evs1 ++ if verbose = true then [Event.print (.ldapConfigIs cfg)]
        else []) = [] := by
      rw [searchCalls_append, h0]
      cases verbose <;> rfl
    rcases hpages : syncGroups.pages w fuel 0 [] s1 with _ | ⟨ret2, s2, evs2⟩
    · rw [hpages] at h
      cases h
    · have h2 := searchCalls_groupPages w fuel 0 [] s1 _ hpages
      rw [hpages] at h
      simp only at h2
      cases ret2 with
      | error err =>
        simp only [Option.some.injEq] at h
        subst h
        simp only [searchCalls_append _ evs2, hout, h2, List.append_nil]
        exact ⟨fun req hreq => absurd hreq (List.not_mem_nil req), fun _ _ _ hret => by cases hret⟩
      | ok existingGroups =>
        simp only at h
        obtain ⟨h3, h4⟩ := searchCalls_connect w ldapPass cfg s2
        rcases hconn : syncGroups.connect w ldapPass cfg s2 with ⟨ret3, s3, evs3⟩
        rw [hconn] at h h3 h4
        simp only at h3 h4
        cases ret3 with
        | error err =>
          simp only [Option.some.injEq] at h
          subst h
          simp only [searchCalls_append, hout, h2, List.nil_append]
          exact ⟨fun req hreq => ⟨cfg, rfl, h3 req hreq⟩, fun _ _ _ hret => by cases hret⟩
        | ok entries =>
          simp only [Option.some.injEq] at h
          subst h
          simp only [searchCalls_append, hout, h2, List.nil_append]
          refine ⟨fun req hreq => ⟨cfg, rfl, h3 req hreq⟩, fun cfg1 e1 en1 hret => ?_⟩
          simp only [Except.ok.injEq, Prod.mk.injEq] at hret
          obtain ⟨rfl, -, -⟩ := hret
          exact ⟨rfl, h4 entries rfl⟩

theorem searchCalls_syncGroups {σ : Type} (rt : GoRuntime) (w : World σ) (ldapPass : String)
    (verbose : Bool) (fuel : Nat) (s : σ) (run : Run σ (Option String))
    (h : syncGroups rt w ldapPass verbose fuel s = some run) :
    ∃ r, syncGroups.collect rt w ldapPass verbose fuel s = some r ∧
      searchCalls run.events = searchCalls r.events := by
  unfold syncGroups at h
  rcases hcollect : syncGroups.collect rt w ldapPass verbose fuel s with _ | ⟨ret, s1, evs1⟩
  · rw [hcollect] at h
    cases h
  · rw [hcollect] at h
    refine ⟨_, rfl, ?_⟩
    cases ret with
    | error err =>
      simp only [Option.some.injEq] at h
      subst h
      rfl
    | ok val =>
      obtain ⟨cfg, existingGroups, entries⟩ := val
      simp only at h
      have hins := searchCalls_insert w verbose cfg existingGroups entries false s1
      rcases hrun : syncGroups.insert w verbose cfg existingGroups entries false s1 with
        ⟨ret2, s2, evs2⟩
      rw [hrun] at h hins
      simp only at hins
      cases ret2 with
      | error err =>
        simp only [Option.some.injEq] at h
        subst h
        simp [searchCalls_append, hins]
      | ok didInsert =>
        simp only [Option.some.injEq] at h
        subst h
        cases didInsert <;> simp [searchCalls_append, hins, searchCalls]

theorem searchRequest_eq (cfg : ldapConfig) :
    syncGroups.searchRequest cfg =
      { baseDN := cfg.groupBaseDN,
        scope := if cfg.scope = 0 then .baseObject else if cfg.scope = 1 then .singleLevel
          else .wholeSubtree,
        filter := cfg.groupFilter, attributes := [cfg.groupAttr] } := by
  unfold syncGroups.searchRequest syncGroups.scope
  split_ifs <;> rfl

theorem floatToInt_in_range (rt : GoRuntime) (vv : ℚ)
    (h : -(2 : Int) ^ 63 ≤ Int.tdiv vv.num vv.den ∧ Int.tdiv vv.num vv.den < (2 : Int) ^ 63) :
    floatToInt rt vv = Int.tdiv vv.num vv.den := by
  unfold floatToInt
  simp only [h, and_self, if_true]

/-- C3. When the settings map is fetched with status 200 and every recognized
key other than `ldap_group_search_scope` is absent or valid: if the scope key
is omitted, `getLdapConfig` succeeds with scope 2; if it holds a number `vv`,
`getLdapConfig` succeeds with the scope `int(vv)`, which is the truncation of
`vv` toward zero whenever that fits an `int`.  In every run of `syncGroups`,
each directory search is sent with scope whole-subtree when the key is
omitted and, when it holds a number, with base-object if `int(vv)` is 0,
single-level if it is 1 and whole-subtree for every other integer (so for 5).
And when everything before the loop over the search result succeeds with
configuration `cfg`, the run returns and sends exactly one directory search:
base DN, filter and attribute of `cfg`, and the scope that this total mapping
gives to `cfg.scope`. -/
theorem getLdapConfig_scope_fallback {σ : Type} (rt : GoRuntime) (w : World σ) (verbose : Bool)
    (s : σ) (rawCfg : RawCfg) (hget : Fetched w s rawCfg)
    (hok : ∀ p ∈ recognized, p.1 ≠ "ldap_group_search_scope" → KeyOk rawCfg p) :
    (rawCfg "ldap_group_search_scope" = none →
      ∃ cfg, (getLdapConfig rt w verbose s).ret = .ok cfg ∧ cfg.scope = 2) ∧
    (∀ vv, rawCfg "ldap_group_search_scope" = some (.number vv) →
      ∃ cfg, (getLdapConfig rt w verbose s).ret = .ok cfg ∧ cfg.scope = floatToInt rt vv ∧
        (-(2 : Int) ^ 63 ≤ Int.tdiv vv.num vv.den ∧ Int.tdiv vv.num vv.den < (2 : Int) ^ 63 →
          cfg.scope = Int.tdiv vv.num vv.den)) ∧
    (∀ ldapPass fuel run, syncGroups rt w ldapPass verbose fuel s = some run →
      ∀ req ∈ searchCalls run.events,
        (rawCfg "ldap_group_search_scope" = none → req.scope = .wholeSubtree) ∧
        (∀ vv, rawCfg "ldap_group_search_scope" = some (.number vv) →
          req.scope = if floatToInt rt vv = 0 then .baseObject
            else if floatToInt rt vv = 1 then .singleLevel else .wholeSubtree)) ∧
    (∀ ldapPass fuel cfg existingGroups entries s1 evs1,
      syncGroups.collect rt w ldapPass verbose fuel s =
        some ⟨.ok (cfg, existingGroups, entries), s1, evs1⟩ →
      ∃ run, syncGroups rt w ldapPass verbose fuel s = some run ∧
        (getLdapConfig rt w verbose s).ret = .ok cfg ∧
        searchCalls run.events =
          [{ baseDN := cfg.groupBaseDN,
             scope := if cfg.scope = 0 then .baseObject else if cfg.scope = 1 then .singleLevel
               else .wholeSubtree,
             filter := cfg.groupFilter, attributes := [cfg.groupAttr] }]) := by
  have hall : NumberOk rawCfg "ldap_group_search_scope" → ∀ p ∈ recognized, KeyOk rawCfg p := by
    intro hn p hp
    by_cases hk : p.1 = "ldap_group_search_scope"
    · simp only [recognized, List.mem_cons, List.mem_singleton, List.not_mem_nil, or_false] at hp
      rcases hp with rfl | rfl | rfl | rfl | rfl | rfl | rfl <;> first | exact hn | simp at hk
    · exact hok p hp hk
  have hret := getLdapConfig_ret rt w verbose s rawCfg hget
  refine ⟨fun hnone => ?_, fun vv hvv => ?_, fun ldapPass fuel run hrun req hreq => ?_,
    fun ldapPass fuel cfg existingGroups entries s1 evs1 hcollect => ?_⟩
  · obtain ⟨cfg, hcfg⟩ := resolve_of_ok rt rawCfg (hall (Or.inl hnone))
    exact ⟨cfg, by rw [hret, hcfg], (resolve_inv rt rawCfg cfg hcfg).2.2.2.2.2.2.1 hnone⟩
  · obtain ⟨cfg, hcfg⟩ := resolve_of_ok rt rawCfg (hall (Or.inr ⟨vv, hvv⟩))
    have h2 := (resolve_inv rt rawCfg cfg hcfg).2.2.2.2.2.2.2.1 vv hvv
    exact ⟨cfg, by rw [hret, hcfg], h2, fun hr => by rw [h2, floatToInt_in_range rt vv hr]⟩
  · obtain ⟨r, hr, hcalls⟩ := searchCalls_syncGroups rt w ldapPass verbose fuel s run hrun
    rw [hcalls] at hreq
    obtain ⟨cfg, hcfg, rfl⟩ := (searchCalls_collect rt w ldapPass verbose fuel s r hr).1 req hreq
    rw [hret] at hcfg
    obtain ⟨-, -, -, -, -, -, hs2, hsn, -⟩ := resolve_inv rt rawCfg cfg hcfg
    rw [searchRequest_eq]
    refine ⟨fun hnone => ?_, fun vv hvv => ?_⟩
    · simp [hs2 hnone]
    · simp only [hsn vv hvv]
  · obtain ⟨run, hrun, -, -⟩ := syncGroups_of_collect rt w ldapPass verbose fuel s s1 cfg
      existingGroups entries evs1 hcollect
    obtain ⟨r, hr, hcalls⟩ := searchCalls_syncGroups rt w ldapPass verbose fuel s run hrun
    rw [hcollect] at hr
    obtain ⟨hcfg, hone⟩ := (searchCalls_collect rt w ldapPass verbose fuel s _ hcollect).2 cfg
      existingGroups entries rfl
    refine ⟨run, hrun, hcfg, ?_⟩
    rw [hcalls, ← Option.some.inj hr, hone, searchRequest_eq]

/-- A run of C3: the settings map of `sampleCfg` holds the scope 5, and the one
directory search of the `syncGroups` run is sent with scope whole-subtree. -/
theorem getLdapConfig_scope_fallback_witness :
    floatToInt sampleRuntime 5 = 5 ∧
    ∃ run, syncGroups sampleRuntime (simWorld (groupsSetup [])) "secret" false 1
        ⟨[], ["cn=ops"]⟩ = some run ∧
      searchCalls run.events =
        [{ baseDN := sampleLdapConfig.groupBaseDN,
           scope := if sampleLdapConfig.scope = 0 then .baseObject
             else if sampleLdapConfig.scope = 1 then .singleLevel else .wholeSubtree,
           filter := sampleLdapConfig.groupFilter,
           attributes := [sampleLdapConfig.groupAttr] }] ∧
      ∀ req ∈ searchCalls run.events, req.scope = .wholeSubtree :=
  have h := getLdapConfig_scope_fallback sampleRuntime (simWorld (groupsSetup [])) false
    ⟨[], ["cn=ops"]⟩ sampleCfg ⟨_, _, rfl, rfl, rfl⟩ sampleCfg_ok
  let ⟨run, hrun, _, hcalls⟩ :=
    h.2.2.2 "secret" 1 sampleLdapConfig ["cn=ops"] sampleEntries _ _ rfl
  ⟨by decide, run, hrun, hcalls,
    fun req hreq => ((h.2.2.1 "secret" 1 run hrun req hreq).2 5 rfl).trans (by decide)⟩

/-- The scope of the directory search of a `syncGroups` run, evaluated for the
scope key omitted and holding 0, 1, 2 and 5. -/
theorem syncGroups_scopes :
    scopesSearched none = some [.wholeSubtree] ∧
    scopesSearched (some (.number 0)) = some [.baseObject] ∧
    scopesSearched (some (.number 1)) = some [.singleLevel] ∧
    scopesSearched (some (.number 2)) = some [.wholeSubtree] ∧
    scopesSearched (some (.number 5)) = some [.wholeSubtree] := by
  decide

/-! ## `main` -/

/-- C10. In `main`, when the required flags are set: a requested reconciler
is run, `syncGroups` after `syncUsers` and from the state `syncUsers` left; the
process ends when the reconcilers that are run have returned, and its exit
status is 1 if at least one of them returned an error and 0 otherwise (a
reconciler that is not run counts as returning nil).  In particular, when both
sync types are requested, `syncGroups` is run whether `syncUsers` returned an
error or nil, and the exit status is 1 exactly when one of the two returned an
error. -/
theorem main_both_requested {σ : Type} (rt : GoRuntime) (w : World σ) (fl : Flags) (fuel : Nat)
    (s : σ)
    (hflags : fl.sync ≠ "" ∧ fl.harbor_url ≠ "" ∧ fl.harbor_login ≠ "" ∧ fl.harbor_pass ≠ "") :
    main rt w fl fuel s =
      ((if (mainSyncTypes rt (splitComma fl.sync.data []) false false []).1 then
          syncUsers rt w fl.verbose fuel s else some ⟨none, s, []⟩).bind fun ru =>
        (if (mainSyncTypes rt (splitComma fl.sync.data []) false false []).2.1 then
          syncGroups rt w fl.ldap_pass fl.verbose fuel ru.state
          else some ⟨none, ru.state, []⟩).map fun rg =>
          { ret := if ru.ret.isSome ∨ rg.ret.isSome then 1 else 0
            state := rg.state
            events := (mainSyncTypes rt (splitComma fl.sync.data []) false false []).2.2 ++
              ((ru.events ++
                (match ru.ret with
                  | some err => [Event.print (.userSyncFailed err)]
                  | none => [])) ++
              (rg.events ++
                (match rg.ret with
                  | some err => [Event.print (.groupSyncFailed err)]
                  | none => []))) }) ∧
    ((mainSyncTypes rt (splitComma fl.sync.data []) false false []).1 = true →
      (mainSyncTypes rt (splitComma fl.sync.data []) false false []).2.1 = true →
      main rt w fl fuel s =
        (syncUsers rt w fl.verbose fuel s).bind fun ru =>
          (syncGroups rt w fl.ldap_pass fl.verbose fuel ru.state).map fun rg =>
            { ret := if ru.ret.isSome ∨ rg.ret.isSome then 1 else 0
              state := rg.state
              events := (mainSyncTypes rt (splitComma fl.sync.data []) false false []).2.2 ++
                ((ru.events ++
                  (match ru.ret with
                    | some err => [Event.print (.userSyncFailed err)]
                    | none => [])) ++
                (rg.events ++
                  (match rg.ret with
                    | some err => [Event.print (.groupSyncFailed err)]
                    | none => []))) }) := by
  obtain ⟨h1, h2, h3, h4⟩ := hflags
  have general : main rt w fl fuel s =
      ((if (mainSyncTypes rt (splitComma fl.sync.data []) false false []).1 then
          syncUsers rt w fl.verbose fuel s else some ⟨none, s, []⟩).bind fun ru =>
        (if (mainSyncTypes rt (splitComma fl.sync.data []) false false []).2.1 then
          syncGroups rt w fl.ldap_pass fl.verbose fuel ru.state
          else some ⟨none, ru.state, []⟩).map fun rg =>
          { ret := if ru.ret.isSome ∨ rg.ret.isSome then 1 else 0
            state := rg.state
            events := (mainSyncTypes rt (splitComma fl.sync.data []) false false []).2.2 ++
              ((ru.events ++
                (match ru.ret with
                  | some err => [Event.print (.userSyncFailed err)]
                  | none => [])) ++
              (rg.events ++
                (match rg.ret with
                  | some err => [Event.print (.groupSyncFailed err)]
                  | none => []))) }) := by
    simp only [main, h1, h2, h3, h4, or_self, if_false, mainRun]
    generalize mainSyncTypes rt (splitComma fl.sync.data []) false false [] = r
    obtain ⟨doU, doG, evs0⟩ := r
    cases doU
    · simp only [Bool.false_eq_true, if_false, Option.bind]
      cases doG
      · simp [Run.afterAll]
      · simp only [if_true]
        rcases syncGroups rt w fl.ldap_pass fl.verbose fuel s with _ | ⟨retg, sg, evg⟩
        · rfl
        · cases retg <;> simp [Run.afterAll]
    · simp only [if_true]
      rcases syncUsers rt w fl.verbose fuel s with _ | ⟨retu, su, evu⟩
      · rfl
      · cases retu with
        | none =>
          simp only [Option.bind]
          cases doG
          · simp [Run.afterAll]
          · simp only [if_true]
            rcases syncGroups rt w fl.ldap_pass fl.verbose fuel su with _ | ⟨retg, sg, evg⟩
            · rfl
            · cases retg <;> simp [Run.afterAll]
        | some erru =>
          simp only [Option.bind]
          cases doG
          · simp [Run.afterAll]
          · simp only [if_true]
            rcases syncGroups rt w fl.ldap_pass fl.verbose fuel su with _ | ⟨retg, sg, evg⟩
            · rfl
            · cases retg <;> simp [Run.afterAll]
  refine ⟨general, fun husers hgroups => ?_⟩
  rw [general]
  simp only [husers, hgroups, if_true]

/-- A run of C10: the user reconciler fails on its first request, the group
reconciler runs all the same and creates the groups, and the exit status
is 1. -/
theorem main_both_requested_witness :
    main sampleRuntime failingUsersWorld bothFlags 1 ⟨[], []⟩ =
      (syncUsers sampleRuntime failingUsersWorld bothFlags.verbose 1 ⟨[], []⟩).bind fun ru =>
        (syncGroups sampleRuntime failingUsersWorld bothFlags.ldap_pass bothFlags.verbose 1
          ru.state).map fun rg =>
          { ret := if ru.ret.isSome ∨ rg.ret.isSome then 1 else 0
            state := rg.state
            events :=
              (mainSyncTypes sampleRuntime (splitComma bothFlags.sync.data []) false false []).2.2 ++
              ((ru.events ++
                (match ru.ret with
                  | some err => [Event.print (.userSyncFailed err)]
                  | none => [])) ++
              (rg.events ++
                (match rg.ret with
                  | some err => [Event.print (.groupSyncFailed err)]
                  | none => []))) } :=
  (main_both_requested sampleRuntime failingUsersWorld bothFlags 1 ⟨[], []⟩
    ⟨by decide, by decide, by decide, by decide⟩).2 (by decide) (by decide)

/-- The same run evaluated: exit status 1, the three groups created after the
user reconciler failed. -/
theorem main_scenario :
    ((main sampleRuntime failingUsersWorld bothFlags 1 ⟨[], []⟩).map fun run =>
      (run.ret, run.state.groups)) = some (1, ["cn=dev", "cn=ops", "cn=qa"]) ∧
    (syncUsers sampleRuntime failingUsersWorld false 1 ⟨[], []⟩).map (fun run => run.ret) =
      some (some "search existing returned 500 Internal Server Error boom") := by
  decide

end HarborLdapSync
